import Mathlib

/-!
# Verification of the salescrm CSV ingestion and reconciliation pipeline

Shallow embedding of the lead-management core from `src/server/services/crm.ts`
(and its callers in `src/server/scheduler.ts` / `src/server/routes/admin.ts`):
the CSV parser `parseCSV`, the phone normalizer `normalizePhone`, the import
orchestrator `importFromCsvRows`, the ownership balancer
`assignUnassignedLeads` and the read-time lead filter of `listLeads`.

Conventions of the embedding:
* JavaScript records (`Record<string, string>`) become ordered association
  lists; `Map`/object-spread write semantics (update in place, insert at the
  end) are modelled by `mapSet`.
* `string | undefined` becomes `Option String`; JS truthiness of such a value
  (`undefined` and `""` are falsy) is `jsT`.
* `randomUUID()` is modelled by a supply of fresh numeric ids threaded through
  the import run; `new Date().toISOString()` by an explicit `now : String`.
* String helpers (`trim`, `toLowerCase`, the regular expressions of the row
  classifier) are re-implemented over `List Char`; they agree with the
  JavaScript originals on the ASCII inputs the theorems use.
-/

namespace SalesCRM

/-- Ordered association list standing for a JS object / `Map`. -/
abbrev Rec := List (String × String)

/-- First-match lookup (positions in a `mapSet`-built list are unique). -/
def mapGet {α : Type} (m : List (String × α)) (k : String) : Option α :=
  match m with
  | [] => none
  | (k1, v) :: rest => if k1 = k then some v else mapGet rest k

/-- JS `Map.set` / object property write: update in place or append. -/
def mapSet {α : Type} (m : List (String × α)) (k : String) (v : α) :
    List (String × α) :=
  match m with
  | [] => [(k, v)]
  | (k1, v1) :: rest =>
      if k1 = k then (k1, v) :: rest else (k1, v1) :: mapSet rest k v

/-- Object spread `{...base, ...upd}`. -/
def objAssign (base upd : Rec) : Rec :=
  upd.foldl (fun acc kv => mapSet acc kv.1 kv.2) base

/-- JS truthiness of a `string | undefined` value. -/
def jsT (o : Option String) : Bool := o.getD "" != ""

/-- JS `a || b` on strings (`""` is falsy). -/
def jsOrStr (a b : String) : String := if a = "" then b else a

/-- JS `a || b` on `string | undefined` values. -/
def jsOrOpt (a b : Option String) : Option String := if jsT a then a else b

/-- JS `a ?? b` (nullish coalescing) on `string | undefined` values. -/
def jsNullish (a b : Option String) : Option String :=
  match a with
  | some x => some x
  | none => b

/-- Whitespace for `trim` / `\s` (ASCII space, tab, LF, CR, FF, VT). -/
def isWsChar (c : Char) : Bool :=
  c.toNat = 32 || c.toNat = 9 || c.toNat = 10 || c.toNat = 13 ||
  c.toNat = 12 || c.toNat = 11

/-- JS `String.prototype.trim` (ASCII fragment). -/
def trimStr (s : String) : String :=
  String.mk (((s.data.dropWhile isWsChar).reverse.dropWhile isWsChar).reverse)

/-- Lower-case one ASCII character. -/
def lowerChar (c : Char) : Char :=
  if 65 ≤ c.toNat ∧ c.toNat ≤ 90 then Char.ofNat (c.toNat + 32) else c

/-- JS `String.prototype.toLowerCase` (ASCII fragment). -/
def toLowerStr (s : String) : String := String.mk (s.data.map lowerChar)

/-- `v.replace(/\s+/g, "")`: drop all whitespace. -/
def stripWs (s : String) : String :=
  String.mk (s.data.filter (fun c => !isWsChar c))

/-! ## normalizePhone (crm.ts lines 702-704) -/

/-- The global replace `p.replace(/[^\d+]/g, "")`: every character that is
neither a decimal digit nor `+` is deleted, scanning left to right. -/
def stripNonPhone : List Char → List Char
  | [] => []
  | c :: rest =>
      if c.isDigit || c = '+' then c :: stripNonPhone rest
      else stripNonPhone rest

/-- `normalizePhone` from crm.ts. -/
def normalizePhone (p : String) : String := String.mk (stripNonPhone p.data)

/-! ## Row classifier regular expressions

`importFromCsvRows` (crm.ts lines 591-606) and `listLeads` (lines 292-303)
test a lone non-empty cell against date/total/numeric patterns. The regexes
are compiled by hand; the follow sets make greedy digit-run consumption
equivalent to backtracking matching. -/

/-- Split a leading run of decimal digits, returning its length and the rest. -/
def splitDigits : List Char → Nat × List Char
  | [] => (0, [])
  | c :: rest =>
      if c.isDigit then
        let p := splitDigits rest
        (p.1 + 1, p.2)
      else (0, c :: rest)

/-- Consume a full leading digit run whose length must lie in `[lo, hi]`. -/
def expectDigits (lo hi : Nat) (cs : List Char) : Option (List Char) :=
  let p := splitDigits cs
  if lo ≤ p.1 ∧ p.1 ≤ hi then some p.2 else none

/-- Consume a dash-or-slash separator, optionally followed by a literal space
(the first `dateLike` alternative in crm.ts line 594 has a space in the
pattern). -/
def expectSep (spaced : Bool) : List Char → Option (List Char)
  | [] => none
  | c :: rest =>
      if c = '-' || c = '/' then
        if spaced then
          match rest with
          | ' ' :: t => some t
          | _ => none
        else some rest
      else none

/-- Date pattern: one or two digits, separator, one or two digits, separator,
two to four digits, each separator optionally followed by a space. -/
def dateSlashPat (spaced : Bool) (cs : List Char) : Bool :=
  match expectDigits 1 2 cs with
  | none => false
  | some r1 =>
    match expectSep spaced r1 with
    | none => false
    | some r2 =>
      match expectDigits 1 2 r2 with
      | none => false
      | some r3 =>
        match expectSep spaced r3 with
        | none => false
        | some r4 =>
          match expectDigits 2 4 r4 with
          | none => false
          | some r5 => r5.isEmpty

/-- `/^(jan|feb|mar|apr|may|jun|jul|aug|sep|oct|nov|dec)/i`. -/
def monthNames : List String :=
  ["jan", "feb", "mar", "apr", "may", "jun",
   "jul", "aug", "sep", "oct", "nov", "dec"]

/-- Case-insensitive month-name start-anchored test. -/
def monthLike (v : String) : Bool :=
  monthNames.any (fun m => m.data.isPrefixOf (toLowerStr v).data)

/-- Backtick date `/^`\d{2}-\d{2}-\d{4}$/` (crm.ts line 597). -/
def backtickDatePat (cs : List Char) : Bool :=
  match cs with
  | '`' :: r0 =>
    (match expectDigits 2 2 r0 with
     | none => false
     | some r1 =>
       match r1 with
       | '-' :: r2 =>
         (match expectDigits 2 2 r2 with
          | none => false
          | some r3 =>
            match r3 with
            | '-' :: r4 =>
              (match expectDigits 4 4 r4 with
               | none => false
               | some r5 => r5.isEmpty)
            | _ => false)
       | _ => false)
  | _ => false

/-- `/^sum|^total|^subtotal/i`. -/
def totalLike (v : String) : Bool :=
  ["sum", "total", "subtotal"].any
    (fun m => m.data.isPrefixOf (toLowerStr v).data)

/-- Drop a leading run of digits and commas (`[\,\d]*`). -/
def dropNumComma : List Char → List Char
  | [] => []
  | c :: rest =>
      if c.isDigit || c = ',' then dropNumComma rest else c :: rest

/-- `/^[-+]?\d{1,3}(?:[\,\d]*)(?:\.\d+)?$/` on the whitespace-stripped cell. -/
def numericOnlyPat (cs : List Char) : Bool :=
  let cs1 := match cs with
    | c :: rest => if c = '-' || c = '+' then rest else c :: rest
    | [] => []
  match cs1 with
  | [] => false
  | c :: _ =>
    if c.isDigit then
      match dropNumComma cs1 with
      | [] => true
      | '.' :: r2 =>
          let p := splitDigits r2
          decide (1 ≤ p.1) && p.2.isEmpty
      | _ => false
    else false

/-- The lone-cell junk test of `importFromCsvRows` (lines 591-606): four
date alternatives, the running-total prefixes, and the numeric pattern
applied to the cell with whitespace removed. -/
def importJunkSingle (v : String) : Bool :=
  dateSlashPat true v.data || dateSlashPat false v.data || monthLike v ||
    backtickDatePat v.data || totalLike v ||
    numericOnlyPat (stripWs v).data

/-- The lone-cell junk test of `listLeads` (lines 292-303): same but without
the spaced date alternative. -/
def listJunkSingle (v : String) : Bool :=
  dateSlashPat false v.data || monthLike v || backtickDatePat v.data ||
    totalLike v || numericOnlyPat (stripWs v).data

/-! ## Data model (shared/api.ts) -/

/-- A Lead record. `id` is a `Nat` standing for the UUID; statuses are the
runtime strings (`LeadStatus` is only a TS-level refinement). -/
structure Lead where
  id : Nat
  fields : Rec
  name : String
  email : Option String
  phone : Option String
  company : Option String
  source : Option String
  status : String
  ownerId : Option String
  notes : Option String
  createdAt : String
  updatedAt : String
deriving DecidableEq

/-- A salesperson (the spec calls them Workers). -/
structure Salesperson where
  id : String
  name : String
  email : Option String
  active : Bool
  createdAt : String
deriving DecidableEq

/-- The portion of `CRMState` the pipeline reads and writes. -/
structure CRMState where
  leads : List Lead
  salespersons : List Salesperson
deriving DecidableEq

/-! ## parseCSV (crm.ts lines 706-762) -/

/-- `cur.replace(/""/g, '"')`: collapse doubled quotes left to right. -/
def replacePairQuotes : List Char → List Char
  | '"' :: '"' :: rest => '"' :: replacePairQuotes rest
  | c :: rest => c :: replacePairQuotes rest
  | [] => []

/-- The value pushed by `pushCell` given the accumulated cell text and the
quote flag at push time. -/
def cellVal (cur : List Char) (inQuotes : Bool) : String :=
  String.mk (if inQuotes then replacePairQuotes cur else cur)

/-- The character scanner of `parseCSV` (lines 719-747): `cur` is the cell
being accumulated, `arr` the cells of the current row, `rows` the finished
rows. The final `pushCell(); rows.push([...arr])` is the base case. -/
def csvScan : List Char → List Char → Bool → List String →
    List (List String) → List (List String)
  | [], cur, inQuotes, arr, rows => rows ++ [arr ++ [cellVal cur inQuotes]]
  | '"' :: '"' :: rest2, cur, true, arr, rows =>
      csvScan rest2 (cur ++ ['"']) true arr rows
  | '"' :: rest, cur, true, arr, rows => csvScan rest cur false arr rows
  | c :: rest, cur, true, arr, rows => csvScan rest (cur ++ [c]) true arr rows
  | '"' :: rest, cur, false, arr, rows => csvScan rest cur true arr rows
  | ',' :: rest, cur, false, arr, rows =>
      csvScan rest [] false (arr ++ [cellVal cur false]) rows
  | '\n' :: rest, cur, false, arr, rows =>
      csvScan rest [] false [] (rows ++ [arr ++ [cellVal cur false]])
  | '\r' :: rest, cur, false, arr, rows => csvScan rest cur false arr rows
  | c :: rest, cur, false, arr, rows => csvScan rest (cur ++ [c]) false arr rows

/-- The per-row object construction of lines 755-758: for each header index,
write the trimmed cell (or `""` past the end of the row) under that header. -/
def buildObj (headers row : List String) : Rec :=
  (List.range headers.length).foldl
    (fun obj j => mapSet obj (headers.getD j "") (trimStr (row.getD j ""))) []

/-- A data row dropped by blank-row suppression (line 754). -/
def blankRow (row : List String) : Bool :=
  row.all (fun c => trimStr c = "")

/-- Result record of `parseCSV`. -/
structure CsvResult where
  headers : List String
  rows : List Rec
deriving DecidableEq

/-- `parseCSV` from crm.ts: scan the text into raw rows, trim the first row
into headers, drop blank data rows, and key the remaining rows by header. -/
def parseCSV (text : String) : CsvResult :=
  match csvScan text.data [] false [] [] with
  | [] => ⟨[], []⟩
  | r0 :: rest =>
    let headers := r0.map trimStr
    ⟨headers, (rest.filter (fun row => !blankRow row)).map (buildObj headers)⟩

/-! ## Field derivation inside importFromCsvRows (lines 608-630) -/

/-- A chain `r[k1] || r[k2] || ... || ""` of JS lookups (both `undefined` and
`""` fall through). -/
def jsOrKeys (r : Rec) : List String → String
  | [] => ""
  | k :: rest =>
      match mapGet r k with
      | some v => if v = "" then jsOrKeys r rest else v
      | none => jsOrKeys r rest

/-- Line 608: `r["name"] || r["Name"] || r["full_name"] || r["Full Name"] ||
r["lead_name"] || ""`. -/
def deriveName (r : Rec) : String :=
  jsOrKeys r ["name", "Name", "full_name", "Full Name", "lead_name"]

/-- Line 615: the email candidates, trimmed, `""` mapped to `undefined`. -/
def deriveEmail (r : Rec) : Option String :=
  if trimStr (jsOrKeys r ["email", "Email", "e-mail", "E-mail"]) = "" then none
  else some (trimStr (jsOrKeys r ["email", "Email", "e-mail", "E-mail"]))

/-- Line 618: the raw phone candidates, trimmed. -/
def derivePhoneRaw (r : Rec) : String :=
  trimStr (jsOrKeys r ["phone", "Phone", "mobile", "Mobile"])

/-- Line 625: `phoneRaw ? normalizePhone(phoneRaw) : undefined`. -/
def derivePhone (r : Rec) : Option String :=
  if derivePhoneRaw r = "" then none else some (normalizePhone (derivePhoneRaw r))

/-- Line 626: `r["company"] || r["Company"] || undefined`. -/
def deriveCompany (r : Rec) : Option String :=
  if jsOrKeys r ["company", "Company"] = "" then none
  else some (jsOrKeys r ["company", "Company"])

/-- Line 627: the source candidates or `undefined`. -/
def deriveSource (r : Rec) : Option String :=
  if jsOrKeys r ["source", "Source", "utm_source"] = "" then none
  else some (jsOrKeys r ["source", "Source", "utm_source"])

/-- Line 628: `(r["status"] || r["Status"] || "").trim().toLowerCase()`. -/
def deriveStatusRaw (r : Rec) : String :=
  toLowerStr (trimStr (jsOrKeys r ["status", "Status"]))

/-- Line 629: `statusRaw || "new"`. -/
def deriveStatus (r : Rec) : String := jsOrStr (deriveStatusRaw r) "new"

/-- Line 630: the notes candidates or `undefined`. -/
def deriveNotes (r : Rec) : Option String :=
  if jsOrKeys r ["notes", "Notes"] = "" then none
  else some (jsOrKeys r ["notes", "Notes"])

/-- Lines 648-654: keep only the non-empty trimmed values of the row. -/
def extractFields (r : Rec) : Rec :=
  r.foldl
    (fun acc kv =>
      if trimStr kv.2 ≠ "" then mapSet acc kv.1 (trimStr kv.2) else acc)
    []

/-! ## Merge and create (lines 656-694) -/

/-- The update merge of lines 656-668: convenience fields fall back to the
matched lead through JS truthiness (`||`) or nullish (`??`) choice, field
maps are spread-merged, `updatedAt` is refreshed. -/
def mergeLead (ex : Lead) (r : Rec) (now : String) : Lead :=
  { ex with
    name := jsOrStr (deriveName r) ex.name
    email := jsOrOpt (deriveEmail r) ex.email
    phone := jsOrOpt (derivePhone r) ex.phone
    company := jsNullish (deriveCompany r) ex.company
    source := jsNullish (deriveSource r) ex.source
    status := jsOrStr (deriveStatus r) ex.status
    notes := jsNullish (deriveNotes r) ex.notes
    fields := objAssign ex.fields (extractFields r)
    updatedAt := now }

/-- The create branch of lines 676-689. -/
def createLead (r : Rec) (now : String) (id : Nat) : Lead :=
  { id := id
    fields := extractFields r
    name := deriveName r
    email := deriveEmail r
    phone := derivePhone r
    company := deriveCompany r
    source := deriveSource r
    status := jsOrStr (deriveStatus r) "new"
    ownerId := none
    notes := deriveNotes r
    createdAt := now
    updatedAt := now }

/-! ## The import loop (lines 559-700) -/

/-- Mutable state of one import run: the working lead list, the same-batch
dedupe sets `importedEmails`/`importedPhones`, the three counters and the
fresh-id supply standing for `randomUUID`. -/
structure ImpState where
  leads : List Lead
  ie : List String
  ip : List String
  imported : Nat
  updated : Nat
  skipped : Nat
  nextId : Nat
deriving DecidableEq

/-- Lines 583-590: the row passes when it has a non-empty trimmed value and,
if exactly one, that value is not date/total/numeric junk. -/
def rowNonEmptyVals (r : Rec) : List String :=
  (r.map (fun kv => trimStr kv.2)).filter (fun v => v ≠ "")

/-- Lines 583-590 junk guard (see `importStep` doc). -/
def survivesJunk (r : Rec) : Bool :=
  if (rowNonEmptyVals r).length = 0 then false
  else if (rowNonEmptyVals r).length = 1 then
    !importJunkSingle ((rowNonEmptyVals r).headD "")
  else true

/-- The identity resolution of lines 632-636: try the email index first
(unless this normalized email was already consumed in this batch), then the
phone index under the same batch-exclusion rule. -/
def lookupExisting (byEmail0 byPhone0 : List (String × Lead))
    (ie ip : List String) (r : Rec) : Option Lead :=
  match
    (match deriveEmail r with
     | some e => if (toLowerStr e) ∈ ie then none else mapGet byEmail0 (toLowerStr e)
     | none => none) with
  | some l => some l
  | none =>
      if jsT (derivePhone r) ∧ ((derivePhone r).getD "") ∉ ip then
        mapGet byPhone0 ((derivePhone r).getD "")
      else none

/-- One iteration of the `for (const r of rows)` loop, lines 583-695. The
lookup maps are the ones built once at lines 564-573 (they are never
refreshed inside the loop); the lookup is pure, so evaluating it after the
duplicate checks instead of before them (line 632 vs 639) is equivalent. -/
def importStep (byEmail0 byPhone0 : List (String × Lead)) (now : String)
    (s : ImpState) (r : Rec) : ImpState :=
  if !survivesJunk r then { s with skipped := s.skipped + 1 }
  else if jsT (deriveEmail r) ∧ (toLowerStr ((deriveEmail r).getD "")) ∈ s.ie then
    { s with skipped := s.skipped + 1 }
  else if jsT (derivePhone r) ∧ ((derivePhone r).getD "") ∈ s.ip then
    { s with skipped := s.skipped + 1 }
  else
    match lookupExisting byEmail0 byPhone0 s.ie s.ip r with
    | some ex =>
        { s with
          leads := s.leads.map (fun l => if l.id = ex.id then mergeLead ex r now else l)
          ie := if jsT (deriveEmail r) then
              (toLowerStr ((deriveEmail r).getD "")) :: s.ie else s.ie
          ip := if jsT (derivePhone r) then
              ((derivePhone r).getD "") :: s.ip else s.ip
          updated := s.updated + 1 }
    | none =>
        { s with
          leads := createLead r now s.nextId :: s.leads
          ie := if jsT (deriveEmail r) then
              (toLowerStr ((deriveEmail r).getD "")) :: s.ie else s.ie
          ip := if jsT (derivePhone r) then
              ((derivePhone r).getD "") :: s.ip else s.ip
          imported := s.imported + 1
          nextId := s.nextId + 1 }

/-- The normalized-email key under which a lead is indexed (line 567),
`none` when the lead has no truthy email. -/
def leadEmailKey (l : Lead) : Option String :=
  match l.email with
  | some e => if e = "" then none else some (toLowerStr e)
  | none => none

/-- The normalized-phone key under which a lead is indexed (line 572). -/
def leadPhoneKey (l : Lead) : Option String :=
  match l.phone with
  | some p => if p = "" then none else some (normalizePhone p)
  | none => none

/-- Lines 564-568: index the current leads by lowercased email. -/
def buildByEmail (ls : List Lead) : List (String × Lead) :=
  (ls.filter (fun l => jsT l.email)).foldl
    (fun m l => mapSet m (toLowerStr (l.email.getD "")) l) []

/-- Lines 569-573: index the current leads by normalized phone. -/
def buildByPhone (ls : List Lead) : List (String × Lead) :=
  (ls.filter (fun l => jsT l.phone)).foldl
    (fun m l => mapSet m (normalizePhone (l.phone.getD "")) l) []

/-! ## Ownership balancer (lines 517-557) -/

/-- `findLeastLoaded`: first key of strictly minimal load in iteration
order (the initial `Infinity` makes the first entry win ties). -/
def findLeastLoaded (load : List (String × Nat)) : Option String :=
  (load.foldl
    (fun best kv =>
      match best with
      | none => some kv
      | some b => if kv.2 < b.2 then some kv else some b)
    none).map (fun b => b.1)

/-- Result of the balancer: the rewritten leads and the `assigned` count. -/
structure AssignResult where
  leads : List Lead
  assigned : Nat
deriving DecidableEq

/-- One step of the `state.leads.map` at lines 528-542, threading the load
table and the count (the list is accumulated reversed and flipped at the
end). A falsy (empty-string) winner is skipped like the JS `if (target)`. -/
def assignStep (now : String) (acc : List (String × Nat) × Nat × List Lead)
    (l : Lead) : List (String × Nat) × Nat × List Lead :=
  if jsT l.ownerId then (acc.1, acc.2.1, l :: acc.2.2)
  else
    match findLeastLoaded acc.1 with
    | some t =>
        if t = "" then (acc.1, acc.2.1, l :: acc.2.2)
        else
          (mapSet acc.1 t ((mapGet acc.1 t).getD 0 + 1), acc.2.1 + 1,
            ({ l with ownerId := some t, updatedAt := now }) :: acc.2.2)
    | none => (acc.1, acc.2.1, l :: acc.2.2)

/-- Lines 521-525: zero the load of every active worker, then count the
leads already owned by one of them. -/
def initialLoad (st : CRMState) : List (String × Nat) :=
  st.leads.foldl
    (fun m l =>
      if jsT l.ownerId ∧ (mapGet m (l.ownerId.getD "")).isSome then
        mapSet m (l.ownerId.getD "")
          ((mapGet m (l.ownerId.getD "")).getD 0 + 1)
      else m)
    ((st.salespersons.filter (fun s => s.active)).foldl
      (fun m s => mapSet m s.id 0) [])

/-- `assignUnassignedLeads` from crm.ts: recompute per-active-worker load,
then hand every unowned lead to the least-loaded worker. -/
def assignUnassignedLeads (st : CRMState) (now : String) : AssignResult :=
  if (st.salespersons.filter (fun s => s.active)).isEmpty then ⟨st.leads, 0⟩
  else
    ⟨(st.leads.foldl (assignStep now) (initialLoad st, 0, [])).2.2.reverse,
      (st.leads.foldl (assignStep now) (initialLoad st, 0, [])).2.1⟩

/-- Counts reported by one import run. -/
structure ImportCounts where
  imported : Nat
  updated : Nat
  assigned : Nat
  skipped : Nat
deriving DecidableEq

/-- The state after the `for` loop of `importFromCsvRows` (lines 583-695):
the fold of `importStep` over the rows, starting from the persisted leads
with empty batch-dedupe sets and zeroed counters. -/
def importRun (st : CRMState) (rows : List Rec) (now : String)
    (nextId : Nat) : ImpState :=
  rows.foldl (importStep (buildByEmail st.leads) (buildByPhone st.leads) now)
    ⟨st.leads, [], [], 0, 0, 0, nextId⟩

/-- `importFromCsvRows` from crm.ts: fold the loop over the rows starting
from the persisted state, save, then run the balancer once. -/
def importFromCsvRows (st : CRMState) (rows : List Rec) (now : String)
    (nextId : Nat) : CRMState × ImportCounts :=
  (⟨(assignUnassignedLeads
        ⟨(importRun st rows now nextId).leads, st.salespersons⟩ now).leads,
      st.salespersons⟩,
    ⟨(importRun st rows now nextId).imported,
      (importRun st rows now nextId).updated,
      (assignUnassignedLeads
        ⟨(importRun st rows now nextId).leads, st.salespersons⟩ now).assigned,
      (importRun st rows now nextId).skipped⟩)

/-! ## The read-time lead filter of listLeads (lines 281-325) -/

/-- The key fields consulted when a lead has no name/email/phone. -/
def listKeyFields : List String :=
  ["full name", "phone", "email",
   "what_is_your_average_monthly_electricity_bill?",
   "what_type_of_property_do_you_want_to_install_solar_on?"]

/-- The non-empty trimmed field values of a lead (line 285). -/
def leadNonEmptyVals (l : Lead) : List String :=
  (l.fields.map (fun kv => trimStr kv.2)).filter (fun v => v ≠ "")

/-- Lines 316-318: how many of the key fields are populated. -/
def realFieldCount (l : Lead) : Nat :=
  (listKeyFields.filter
    (fun k => trimStr ((mapGet l.fields k).getD "") ≠ "")).length

/-- The filter predicate of `listLeads`: drop leads whose field values are
all blank, lone junk values, and leads with no real identity data and fewer
than two populated key fields. -/
def listLeadsFilter (l : Lead) : Bool :=
  if (leadNonEmptyVals l).length = 0 then false
  else if (leadNonEmptyVals l).length = 1 ∧
      listJunkSingle ((leadNonEmptyVals l).headD "") then false
  else if ¬ (l.name ≠ "" ∨ jsT l.email ∨ jsT l.phone) then
    if realFieldCount l < 2 then false else true
  else true

/-! ## Basic facts about the string helpers -/

theorem stripNonPhone_eq_filter (l : List Char) :
    stripNonPhone l = l.filter (fun c => c.isDigit || c = '+') := by
  induction l with
  | nil => rfl
  | cons c rest ih =>
      simp only [stripNonPhone, List.filter_cons]
      split <;> simp_all

/-! ## C7 — normalizePhone -/

/-- C7 counterexample: `normalizePhone` keeps every `+`, not only a leading
one. On input `1+2` the claimed result would be `12` with no interior `+`,
but the code returns `1+2`, whose second character is `+`. -/
theorem normalizePhone_keeps_inner_plus :
    normalizePhone "1+2" = "1+2" ∧
      '+' ∈ ((normalizePhone "1+2").data.drop 1) := by
  constructor <;> decide

/-- C7 amended: `normalizePhone p` deletes exactly the characters that are
neither decimal digits nor `+`, keeping every digit and every `+` (wherever
it occurs) in order; consequently every character of the result is a digit
or a `+`. -/
theorem normalizePhone_filters_digits_plus (p : String) :
    (normalizePhone p).data = p.data.filter (fun c => c.isDigit || c = '+') ∧
      ∀ c ∈ (normalizePhone p).data, c.isDigit ∨ c = '+' := by
  have h := stripNonPhone_eq_filter p.data
  refine ⟨h, ?_⟩
  intro c hc
  have : c ∈ p.data.filter (fun c => c.isDigit || c = '+') := by
    simpa [normalizePhone, h] using hc
  have := List.of_mem_filter this
  rcases Bool.or_eq_true_iff.mp this with h1 | h1
  · exact Or.inl h1
  · exact Or.inr (by simpa using h1)

/-- C7 amended, witness: the filter characterization at a concrete input. -/
theorem normalizePhone_filters_digits_plus_witness :
    (normalizePhone " (41) 555+12").data
      = (" (41) 555+12" : String).data.filter
          (fun c => c.isDigit || c = '+') :=
  (normalizePhone_filters_digits_plus " (41) 555+12").1

/-! ## C9 — quoted-field parsing -/

/-- C9: parsing an input whose data row is the quoted field
`"Smith, ""Bob"" Jr."` yields exactly one record with a single cell whose
value keeps the embedded comma and turns each doubled quote into one quote
character. -/
theorem parseCSV_quoted_field :
    (parseCSV "name\n\"Smith, \"\"Bob\"\" Jr.\"").rows
        = [[("name", "Smith, \"Bob\" Jr.")]] ∧
      (parseCSV "name\n\"Smith, \"\"Bob\"\" Jr.\"").headers = ["name"] := by
  constructor <;> decide

/-! ## C6 — the on-demand import path at the scheduler's failing input -/

/-- C6: evaluating the import pipeline the way `importSheet`
(routes/admin.ts) calls it — `importFromCsvRows(parsed.rows, ...)` — on the
two-line sheet `name,email / Bob,bob@x.com` starting from an empty store
imports one lead. (`runOnce` in scheduler.ts instead passes the whole
`parseCSV` result object to `importFromCsvRows`, so its `for ... of rows`
iteration throws and the catch swallows the run; the scheduled path imports
nothing on the same input.) -/
theorem importSheet_imports_failing_input :
    (importFromCsvRows ⟨[], []⟩ (parseCSV "name,email\nBob,bob@x.com").rows
        "t1" 0).2.imported = 1 := by
  decide

/-! ## C4 — update-merge field semantics -/

/-- C4 counterexample: merging a record with no status column into a lead
whose status is `contacted` resets the status to `new` instead of keeping
the existing value, because line 629 defaults the incoming status to `"new"`
before the `status || existing.status` choice at line 664. -/
theorem merge_resets_status :
    (mergeLead
        ⟨5, [], "C", some "c@x", none, none, none, "contacted", none, none,
          "t0", "t0"⟩
        [("email", "c@x")] "t1").status = "new" ∧
      ¬ (mergeLead
        ⟨5, [], "C", some "c@x", none, none, none, "contacted", none, none,
          "t0", "t0"⟩
        [("email", "c@x")] "t1").status = "contacted" := by
  constructor <;> decide

/-- C4 amended: in an update merge, name, email, phone, company, source and
notes are overwritten exactly when the incoming record supplies a non-empty
derived value (for phone: a non-empty normalized value) and kept otherwise;
`createdAt` is preserved and `updatedAt` refreshed; but status is not kept —
it becomes the incoming lowercased status when non-empty and is reset to
`new` when the incoming status is empty or absent. -/
theorem merge_field_semantics (ex : Lead) (r : Rec) (now : String) :
    (mergeLead ex r now).name
        = (if deriveName r = "" then ex.name else deriveName r) ∧
      (mergeLead ex r now).email
        = (if (deriveEmail r).isSome then deriveEmail r else ex.email) ∧
      (mergeLead ex r now).phone
        = (if jsT (derivePhone r) then derivePhone r else ex.phone) ∧
      (mergeLead ex r now).company
        = (if (deriveCompany r).isSome then deriveCompany r else ex.company) ∧
      (mergeLead ex r now).source
        = (if (deriveSource r).isSome then deriveSource r else ex.source) ∧
      (mergeLead ex r now).notes
        = (if (deriveNotes r).isSome then deriveNotes r else ex.notes) ∧
      (mergeLead ex r now).status
        = (if deriveStatusRaw r = "" then "new" else deriveStatusRaw r) ∧
      (mergeLead ex r now).createdAt = ex.createdAt ∧
      (mergeLead ex r now).updatedAt = now := by
  refine ⟨?_, ?_, ?_, ?_, ?_, ?_, ?_, rfl, rfl⟩
  · simp only [mergeLead, jsOrStr]
  · simp only [mergeLead, jsOrOpt, deriveEmail, jsT]
    by_cases h : trimStr (jsOrKeys r ["email", "Email", "e-mail", "E-mail"]) = "" <;>
      simp [h]
  · simp only [mergeLead, jsOrOpt]
  · simp only [mergeLead, jsNullish, deriveCompany]
    by_cases h : jsOrKeys r ["company", "Company"] = "" <;> simp [h]
  · simp only [mergeLead, jsNullish, deriveSource]
    by_cases h : jsOrKeys r ["source", "Source", "utm_source"] = "" <;> simp [h]
  · simp only [mergeLead, jsNullish, deriveNotes]
    by_cases h : jsOrKeys r ["notes", "Notes"] = "" <;> simp [h]
  · simp only [mergeLead, deriveStatus, jsOrStr]
    by_cases h : deriveStatusRaw r = "" <;> simp [h]

/-- C4 amended, witness: `createdAt` of a concrete merge is preserved. -/
theorem merge_field_semantics_witness :
    (mergeLead ⟨9, [], "N", none, none, none, none, "won", none, none, "t0",
        "t0"⟩ [("name", "Zed")] "t1").createdAt = "t0" :=
  (merge_field_semantics
    ⟨9, [], "N", none, none, none, none, "won", none, none, "t0", "t0"⟩
    [("name", "Zed")] "t1").2.2.2.2.2.2.2.1

/-! ## C5 — where the "real signal" rejection actually happens -/

/-- C5 counterexample: a record with no derived name, email or phone and no
populated key field (two non-empty cells `company`/`source`) is not rejected
by `importFromCsvRows`: it is imported as a lead and `skipped` stays 0. -/
theorem keyless_record_imported_not_skipped :
    (importFromCsvRows ⟨[], []⟩ [[("company", "Acme"), ("source", "web")]]
        "t1" 0).2.skipped = 0 ∧
      (importFromCsvRows ⟨[], []⟩ [[("company", "Acme"), ("source", "web")]]
        "t1" 0).2.imported = 1 := by
  constructor <;> decide

/-- C5 amended: the "real signal" test is applied at read time, not during
ingestion — `listLeads` omits from its output every stored lead that has no
name, no truthy email, no truthy phone and fewer than two populated key
fields. -/
theorem junk_lead_hidden_from_list (l : Lead)
    (hname : l.name = "")
    (hemail : jsT l.email = false)
    (hphone : jsT l.phone = false)
    (hcnt : realFieldCount l < 2) :
    listLeadsFilter l = false := by
  have hreal : ¬ (l.name ≠ "" ∨ jsT l.email = true ∨ jsT l.phone = true) := by
    simp [hname, hemail, hphone]
  unfold listLeadsFilter
  rw [if_pos hreal, if_pos hcnt]
  split
  · rfl
  · split <;> rfl

/-! ## Helper lemmas: the balancer only rewrites ownership -/

/-- The pointwise relation between a lead entering the balancer and the one
it writes back: identity keys and id are untouched. -/
def keepsKeys (a b : Lead) : Prop :=
  b.email = a.email ∧ b.phone = a.phone ∧ b.id = a.id

theorem assignStep_shape (now : String)
    (acc : List (String × Nat) × Nat × List Lead) (l : Lead) :
    ∃ l2, (assignStep now acc l).2.2 = l2 :: acc.2.2 ∧ keepsKeys l l2 := by
  unfold assignStep keepsKeys
  split
  · exact ⟨l, rfl, rfl, rfl, rfl⟩
  · split
    · split
      · exact ⟨l, rfl, rfl, rfl, rfl⟩
      · exact ⟨_, rfl, rfl, rfl, rfl⟩
    · exact ⟨l, rfl, rfl, rfl, rfl⟩

theorem assign_foldl_out (now : String) :
    ∀ (ls : List Lead) (load : List (String × Nat)) (n : Nat)
      (out : List Lead),
      ∃ out2,
        (ls.foldl (assignStep now) (load, n, out)).2.2 = out2 ++ out ∧
          List.Forall₂ keepsKeys ls.reverse out2 := by
  intro ls
  induction ls with
  | nil => exact fun load n out => ⟨[], rfl, List.Forall₂.nil⟩
  | cons l rest ih =>
      intro load n out
      obtain ⟨l2, hl2, hk⟩ := assignStep_shape now (load, n, out) l
      have hstep : rest.foldl (assignStep now) (assignStep now (load, n, out) l)
          = rest.foldl (assignStep now)
            ((assignStep now (load, n, out) l).1,
              (assignStep now (load, n, out) l).2.1, l2 :: out) := by
        rw [← hl2]
      obtain ⟨out2r, hout, hf⟩ :=
        ih (assignStep now (load, n, out) l).1
          (assignStep now (load, n, out) l).2.1 (l2 :: out)
      refine ⟨out2r ++ [l2], ?_, ?_⟩
      · simp only [List.foldl_cons, hstep, hout, List.append_assoc,
          List.singleton_append]
      · simp only [List.reverse_cons]
        exact List.rel_append hf (List.Forall₂.cons hk List.Forall₂.nil)

/-- The balancer returns the same leads up to ownership rewrites: emails,
phones and ids are preserved pointwise. -/
theorem assign_preserves (st : CRMState) (now : String) :
    List.Forall₂ keepsKeys st.leads (assignUnassignedLeads st now).leads := by
  unfold assignUnassignedLeads
  split
  · exact List.forall₂_same.mpr (fun a _ => ⟨rfl, rfl, rfl⟩)
  · obtain ⟨out2, hout, hf⟩ := assign_foldl_out now st.leads (initialLoad st) 0 []
    simp only [hout, List.append_nil]
    have := List.rel_reverse hf
    simpa using this

theorem forall₂_keepsKeys_emailKeys {ls out : List Lead}
    (h : List.Forall₂ keepsKeys ls out) :
    out.filterMap leadEmailKey = ls.filterMap leadEmailKey := by
  induction h with
  | nil => rfl
  | @cons a b l1 l2 hk ht ih =>
      simp only [List.filterMap_cons]
      have hab : leadEmailKey b = leadEmailKey a := by
        unfold leadEmailKey
        rw [hk.1]
      rw [hab, ih]

theorem forall₂_keepsKeys_phoneKeys {ls out : List Lead}
    (h : List.Forall₂ keepsKeys ls out) :
    out.filterMap leadPhoneKey = ls.filterMap leadPhoneKey := by
  induction h with
  | nil => rfl
  | @cons a b l1 l2 hk ht ih =>
      simp only [List.filterMap_cons]
      have hab : leadPhoneKey b = leadPhoneKey a := by
        unfold leadPhoneKey
        rw [hk.2.1]
      rw [hab, ih]

theorem assign_length (st : CRMState) (now : String) :
    (assignUnassignedLeads st now).leads.length = st.leads.length :=
  (List.Forall₂.length_eq (assign_preserves st now)).symm

/-! ## Helper lemmas: evaluating one loop iteration -/

theorem deriveEmail_ne_empty {r : Rec} {e : String}
    (h : deriveEmail r = some e) : e ≠ "" := by
  unfold deriveEmail at h
  split at h
  · exact absurd h (by simp)
  · next hne => exact (Option.some_inj.mp h) ▸ hne

theorem importStep_skip_junk (bE bP : List (String × Lead)) (now : String)
    (s : ImpState) (r : Rec) (hs : survivesJunk r = false) :
    importStep bE bP now s r = { s with skipped := s.skipped + 1 } := by
  unfold importStep
  rw [hs]
  rfl

theorem importStep_skip_email_dup (bE bP : List (String × Lead))
    (now : String) (s : ImpState) (r : Rec) (e : String)
    (he : deriveEmail r = some e) (hin : toLowerStr e ∈ s.ie) :
    importStep bE bP now s r = { s with skipped := s.skipped + 1 } := by
  unfold importStep
  cases hsj : survivesJunk r
  · rfl
  · have hne := deriveEmail_ne_empty he
    rw [he]
    simp [jsT, hne, hin]

theorem importStep_run (bE bP : List (String × Lead)) (now : String)
    (s : ImpState) (r : Rec)
    (hs : survivesJunk r = true)
    (hde : ¬ (jsT (deriveEmail r) = true ∧
        (toLowerStr ((deriveEmail r).getD "")) ∈ s.ie))
    (hdp : ¬ (jsT (derivePhone r) = true ∧ ((derivePhone r).getD "") ∈ s.ip)) :
    importStep bE bP now s r =
      match lookupExisting bE bP s.ie s.ip r with
      | some ex =>
          { s with
            leads := s.leads.map
              (fun l => if l.id = ex.id then mergeLead ex r now else l)
            ie := if jsT (deriveEmail r) then
                (toLowerStr ((deriveEmail r).getD "")) :: s.ie else s.ie
            ip := if jsT (derivePhone r) then
                ((derivePhone r).getD "") :: s.ip else s.ip
            updated := s.updated + 1 }
      | none =>
          { s with
            leads := createLead r now s.nextId :: s.leads
            ie := if jsT (deriveEmail r) then
                (toLowerStr ((deriveEmail r).getD "")) :: s.ie else s.ie
            ip := if jsT (derivePhone r) then
                ((derivePhone r).getD "") :: s.ip else s.ip
            imported := s.imported + 1
            nextId := s.nextId + 1 } := by
  unfold importStep
  rw [hs, if_neg hde, if_neg hdp]
  rfl

/-! ## Helper lemmas: association-list maps and the lead indexes -/

theorem mapGet_mapSet_self {α : Type} (m : List (String × α)) (k : String)
    (v : α) : mapGet (mapSet m k v) k = some v := by
  induction m with
  | nil => simp [mapGet, mapSet]
  | cons kv rest ih =>
      obtain ⟨kk, vv⟩ := kv
      by_cases h : kk = k
      · simp [mapGet, mapSet, h]
      · simp [mapGet, mapSet, h, ih]

theorem mapGet_mapSet_other {α : Type} (m : List (String × α)) (k k1 : String)
    (v : α) (h : ¬ k = k1) : mapGet (mapSet m k v) k1 = mapGet m k1 := by
  induction m with
  | nil => simp [mapGet, mapSet, h]
  | cons kv rest ih =>
      obtain ⟨kk, vv⟩ := kv
      by_cases hk : kk = k
      · subst hk
        simp [mapGet, mapSet, h]
      · simp [mapGet, mapSet, hk, ih]

/-- Looking up a key never written by the fold falls through to the
accumulator. -/
theorem keyFold_untouched (key : Lead → String) :
    ∀ (ls : List Lead) (acc : List (String × Lead)) (k : String),
      (∀ l ∈ ls, ¬ key l = k) →
      mapGet (ls.foldl (fun m l => mapSet m (key l) l) acc) k = mapGet acc k := by
  intro ls
  induction ls with
  | nil => intro acc k _; rfl
  | cons x rest ih =>
      intro acc k hne
      simp only [List.foldl_cons]
      rw [ih _ _ (fun l hl => hne l (List.mem_cons_of_mem _ hl)),
        mapGet_mapSet_other _ _ _ _ (hne x (List.mem_cons_self _ _))]

/-- Whatever the fold returns for key `k` is either a list element with that
key or what the accumulator already held. -/
theorem keyFold_sound (key : Lead → String) :
    ∀ (ls : List Lead) (acc : List (String × Lead)) (k : String) (l : Lead),
      mapGet (ls.foldl (fun m l => mapSet m (key l) l) acc) k = some l →
      (l ∈ ls ∧ key l = k) ∨ mapGet acc k = some l := by
  intro ls
  induction ls with
  | nil => intro acc k l h; exact Or.inr h
  | cons x rest ih =>
      intro acc k l h
      simp only [List.foldl_cons] at h
      rcases ih _ _ _ h with h1 | h1
      · exact Or.inl ⟨List.mem_cons_of_mem _ h1.1, h1.2⟩
      · by_cases hk : key x = k
        · subst hk
          rw [mapGet_mapSet_self] at h1
          have hlx : x = l := Option.some_inj.mp h1
          subst hlx
          exact Or.inl ⟨List.mem_cons_self _ _, rfl⟩
        · rw [mapGet_mapSet_other _ _ _ _ hk] at h1
          exact Or.inr h1

/-- With pairwise-distinct keys, each element is found under its own key. -/
theorem keyFold_complete (key : Lead → String) :
    ∀ (ls : List Lead) (acc : List (String × Lead)) (l : Lead),
      ls.Pairwise (fun a b => key a ≠ key b) → l ∈ ls →
      mapGet (ls.foldl (fun m l => mapSet m (key l) l) acc) (key l) = some l := by
  intro ls
  induction ls with
  | nil => intro acc l _ h; cases h
  | cons x rest ih =>
      intro acc l hpw hl
      have hpc := List.pairwise_cons.mp hpw
      simp only [List.foldl_cons]
      rcases List.mem_cons.mp hl with rfl | hl
      · rw [keyFold_untouched key rest _ (key l)
          (fun b hb he => hpc.1 b hb he.symm), mapGet_mapSet_self]
      · exact ih _ _ hpc.2 hl

/-- `Nodup` of a `filterMap` is the same as pairwise disagreement of the
partial key function. -/
theorem nodup_filterMap_iff {α β : Type} (g : α → Option β) :
    ∀ (l : List α),
      (l.filterMap g).Nodup ↔
        l.Pairwise (fun a b => ∀ e, g a = some e → g b ≠ some e) := by
  intro l
  induction l with
  | nil => simp
  | cons x rest ih =>
      rw [List.filterMap_cons]
      cases hx : g x with
      | none =>
          rw [ih]
          constructor
          · intro h
            refine List.pairwise_cons.mpr ⟨?_, h⟩
            intro b _ e he
            rw [hx] at he
            cases he
          · intro h
            exact (List.pairwise_cons.mp h).2
      | some e =>
          rw [List.nodup_cons, ih]
          constructor
          · intro h
            refine List.pairwise_cons.mpr ⟨?_, h.2⟩
            intro b hb e1 he1 hbe
            rw [hx] at he1
            exact h.1 ((Option.some_inj.mp he1) ▸
              List.mem_filterMap.mpr ⟨b, hb, hbe⟩)
          · intro h
            have hpc := List.pairwise_cons.mp h
            refine ⟨?_, hpc.2⟩
            intro hmem
            obtain ⟨b, hb, hbe⟩ := List.mem_filterMap.mp hmem
            exact hpc.1 b hb e hx hbe

/-- The email keys of the leads the email index is built from. -/
theorem emailKeys_as_map (ls : List Lead) :
    (ls.filter (fun l => jsT l.email)).map
        (fun l => toLowerStr (l.email.getD ""))
      = ls.filterMap leadEmailKey := by
  induction ls with
  | nil => rfl
  | cons x rest ih =>
      rw [List.filterMap_cons]
      cases hx : x.email with
      | none =>
          have h1 : jsT x.email = false := by rw [hx]; rfl
          have h2 : leadEmailKey x = none := by
            unfold leadEmailKey; rw [hx]
          rw [List.filter_cons_of_neg (by rw [h1]; decide), h2]
          exact ih
      | some e =>
          by_cases he : e = ""
          · subst he
            have h1 : jsT x.email = false := by rw [hx]; rfl
            have h2 : leadEmailKey x = none := by
              unfold leadEmailKey; rw [hx]; rfl
            rw [List.filter_cons_of_neg (by rw [h1]; decide), h2]
            exact ih
          · have h1 : jsT x.email = true := by
              rw [hx]; simpa [jsT] using he
            have h2 : leadEmailKey x = some (toLowerStr e) := by
              unfold leadEmailKey; rw [hx]; simp [he]
            rw [List.filter_cons_of_pos (by rw [h1]), List.map_cons, h2]
            simp only [hx, Option.getD_some]
            rw [ih]

/-- Split a truthy email key judgement into its parts. -/
theorem leadEmailKey_some_elim {l : Lead} {k : String}
    (hk : leadEmailKey l = some k) :
    ∃ e, l.email = some e ∧ e ≠ "" ∧ toLowerStr e = k := by
  unfold leadEmailKey at hk
  cases hx : l.email with
  | none => rw [hx] at hk; cases hk
  | some e =>
      rw [hx] at hk
      dsimp only at hk
      by_cases he : e = ""
      · rw [if_pos he] at hk; cases hk
      · rw [if_neg he] at hk
        exact ⟨e, rfl, he, Option.some_inj.mp hk⟩

theorem byEmail_sound {ls : List Lead} {k : String} {l : Lead}
    (h : mapGet (buildByEmail ls) k = some l) :
    l ∈ ls ∧ leadEmailKey l = some k := by
  rcases keyFold_sound (fun l => toLowerStr (l.email.getD ""))
      (ls.filter (fun l => jsT l.email)) [] k l h with h1 | h1
  · obtain ⟨hmem, hkey⟩ := h1
    have hmem2 := List.mem_filter.mp hmem
    refine ⟨hmem2.1, ?_⟩
    have hjs := hmem2.2
    unfold leadEmailKey
    cases hx : l.email with
    | none => rw [hx] at hjs; cases hjs
    | some e =>
        have he : e ≠ "" := by
          rw [hx] at hjs; simpa [jsT] using hjs
        rw [hx] at hkey
        simp only [Option.getD_some] at hkey
        simp [he, hkey]
  · cases h1

theorem byPhone_sound {ls : List Lead} {k : String} {l : Lead}
    (h : mapGet (buildByPhone ls) k = some l) : l ∈ ls := by
  rcases keyFold_sound (fun l => normalizePhone (l.phone.getD ""))
      (ls.filter (fun l => jsT l.phone)) [] k l h with h1 | h1
  · exact (List.mem_filter.mp h1.1).1
  · cases h1

theorem byEmail_complete {ls : List Lead} {l : Lead} {k : String}
    (hN : (ls.filterMap leadEmailKey).Nodup) (hl : l ∈ ls)
    (hk : leadEmailKey l = some k) :
    mapGet (buildByEmail ls) k = some l := by
  obtain ⟨e, hx, he, hkey⟩ := leadEmailKey_some_elim hk
  have hjs : jsT l.email = true := by rw [hx]; simpa [jsT] using he
  have hkey2 : toLowerStr (l.email.getD "") = k := by rw [hx]; exact hkey
  have hmem : l ∈ ls.filter (fun l => jsT l.email) :=
    List.mem_filter.mpr ⟨hl, hjs⟩
  have hpw : (ls.filter (fun l => jsT l.email)).Pairwise
      (fun a b => toLowerStr (a.email.getD "") ≠ toLowerStr (b.email.getD "")) := by
    have h1 : ((ls.filter (fun l => jsT l.email)).map
        (fun l => toLowerStr (l.email.getD ""))).Nodup := by
      rw [emailKeys_as_map]; exact hN
    unfold List.Nodup at h1
    rw [List.pairwise_map] at h1
    exact h1
  have := keyFold_complete (fun l => toLowerStr (l.email.getD ""))
    (ls.filter (fun l => jsT l.email)) [] l hpw hmem
  rw [← hkey2]
  exact this

/-! ## Key bookkeeping of merge, create and lookup -/

theorem mergeLead_id (ex : Lead) (r : Rec) (now : String) :
    (mergeLead ex r now).id = ex.id := rfl

theorem mergeLead_emailKey_some (ex : Lead) (r : Rec) (now : String)
    (e : String) (he : deriveEmail r = some e) :
    leadEmailKey (mergeLead ex r now) = some (toLowerStr e) := by
  have hne : e ≠ "" := deriveEmail_ne_empty he
  have h1 : (mergeLead ex r now).email = some e := by
    show jsOrOpt (deriveEmail r) ex.email = some e
    rw [he]
    unfold jsOrOpt
    simp [jsT, hne]
  unfold leadEmailKey
  rw [h1]
  simp [hne]

theorem mergeLead_emailKey_none (ex : Lead) (r : Rec) (now : String)
    (he : deriveEmail r = none) :
    leadEmailKey (mergeLead ex r now) = leadEmailKey ex := by
  have h1 : (mergeLead ex r now).email = ex.email := by
    show jsOrOpt (deriveEmail r) ex.email = ex.email
    rw [he]
    rfl
  unfold leadEmailKey
  rw [h1]

theorem createLead_id (r : Rec) (now : String) (i : Nat) :
    (createLead r now i).id = i := rfl

theorem createLead_emailKey_some (r : Rec) (now : String) (i : Nat)
    (e : String) (he : deriveEmail r = some e) :
    leadEmailKey (createLead r now i) = some (toLowerStr e) := by
  have hne : e ≠ "" := deriveEmail_ne_empty he
  have h1 : (createLead r now i).email = some e := by
    show deriveEmail r = some e
    exact he
  unfold leadEmailKey
  rw [h1]
  simp [hne]

theorem createLead_emailKey_none (r : Rec) (now : String) (i : Nat)
    (he : deriveEmail r = none) :
    leadEmailKey (createLead r now i) = none := by
  have h1 : (createLead r now i).email = none := he
  unfold leadEmailKey
  rw [h1]

/-- Case analysis of a successful identity resolution: either an email-index
hit under the normalized incoming email, or (email absent, consumed, or
missing from the index) a phone-index hit. -/
theorem lookupExisting_some_cases {bE bP : List (String × Lead)}
    {ie ip : List String} {r : Rec} {ex : Lead}
    (h : lookupExisting bE bP ie ip r = some ex) :
    (∃ e, deriveEmail r = some e ∧ (toLowerStr e) ∉ ie ∧
        mapGet bE (toLowerStr e) = some ex) ∨
      ((∀ e, deriveEmail r = some e → (toLowerStr e) ∈ ie ∨
          mapGet bE (toLowerStr e) = none) ∧
        mapGet bP ((derivePhone r).getD "") = some ex) := by
  unfold lookupExisting at h
  cases hde : deriveEmail r with
  | none =>
      rw [hde] at h
      dsimp only at h
      split at h
      · refine Or.inr ⟨?_, h⟩
        intro e1 he1
        cases he1
      · cases h
  | some e =>
      rw [hde] at h
      dsimp only at h
      by_cases hie : (toLowerStr e) ∈ ie
      · rw [if_pos hie] at h
        dsimp only at h
        split at h
        · refine Or.inr ⟨?_, h⟩
          intro e1 he1
          have he : e = e1 := Option.some_inj.mp he1
          exact Or.inl (he ▸ hie)
        · cases h
      · rw [if_neg hie] at h
        cases hbe : mapGet bE (toLowerStr e) with
        | some l =>
            rw [hbe] at h
            dsimp only at h
            have hl : l = ex := Option.some_inj.mp h
            subst hl
            exact Or.inl ⟨e, rfl, hie, hbe⟩
        | none =>
            rw [hbe] at h
            dsimp only at h
            split at h
            · refine Or.inr ⟨?_, h⟩
              intro e1 he1
              have he : e = e1 := Option.some_inj.mp he1
              exact Or.inr (he ▸ hbe)
            · cases h

/-- A failed email-side resolution means the email index has no entry. -/
theorem lookupExisting_none_email {bE bP : List (String × Lead)}
    {ie ip : List String} {r : Rec} {e : String}
    (h : lookupExisting bE bP ie ip r = none)
    (he : deriveEmail r = some e) (hni : (toLowerStr e) ∉ ie) :
    mapGet bE (toLowerStr e) = none := by
  unfold lookupExisting at h
  rw [he] at h
  dsimp only at h
  rw [if_neg hni] at h
  cases hbe : mapGet bE (toLowerStr e) with
  | none => rfl
  | some l => rw [hbe] at h; simp at h

/-! ## C1 invariant: pairwise-distinct email keys survive the loop -/

/-- The invariant maintained through the import loop: current leads have
pairwise different email keys and pairwise different ids; every current
email key either belongs (by id) to the lead the immutable email index maps
it to, or — when the index has no entry — has been recorded in the batch
dedupe set; and every id is below the fresh-id supply. -/
def emailInv (bE : List (String × Lead)) (s : ImpState) : Prop :=
  s.leads.Pairwise (fun a b =>
      (∀ e, leadEmailKey a = some e → leadEmailKey b ≠ some e) ∧ a.id ≠ b.id)
  ∧ (∀ l ∈ s.leads, ∀ e, leadEmailKey l = some e →
      (∀ l0, mapGet bE e = some l0 → l0.id = l.id) ∧
        (mapGet bE e = none → e ∈ s.ie))
  ∧ (∀ l ∈ s.leads, l.id < s.nextId)

theorem importStep_emailInv (leads0 : List Lead) (now : String) (r : Rec)
    (s : ImpState)
    (hN : (leads0.filterMap leadEmailKey).Nodup)
    (hinv : emailInv (buildByEmail leads0) s) :
    emailInv (buildByEmail leads0)
      (importStep (buildByEmail leads0) (buildByPhone leads0) now s r) := by
  obtain ⟨hpw, hacc, hlt⟩ := hinv
  by_cases hs : survivesJunk r = true
  case neg =>
    rw [importStep_skip_junk _ _ _ _ _ (by simpa using hs)]
    exact ⟨hpw, hacc, hlt⟩
  case pos =>
  by_cases hde : jsT (deriveEmail r) = true ∧
      (toLowerStr ((deriveEmail r).getD "")) ∈ s.ie
  case pos =>
    obtain ⟨hjs, hmem⟩ := hde
    have hsome : ∃ e, deriveEmail r = some e := by
      cases hx : deriveEmail r with
      | none => rw [hx] at hjs; cases hjs
      | some e => exact ⟨e, rfl⟩
    obtain ⟨e, he⟩ := hsome
    rw [importStep_skip_email_dup _ _ now s r e he (by
      rw [he] at hmem; exact hmem)]
    exact ⟨hpw, hacc, hlt⟩
  case neg =>
  by_cases hdp : jsT (derivePhone r) = true ∧ ((derivePhone r).getD "") ∈ s.ip
  case pos =>
    have : importStep (buildByEmail leads0) (buildByPhone leads0) now s r
        = { s with skipped := s.skipped + 1 } := by
      unfold importStep
      rw [hs]
      simp only [Bool.not_true, Bool.false_eq_true, if_false, if_neg hde,
        if_pos hdp]
    rw [this]
    exact ⟨hpw, hacc, hlt⟩
  case neg =>
  rw [importStep_run _ _ _ _ _ hs hde hdp]
  cases hex : lookupExisting (buildByEmail leads0) (buildByPhone leads0)
      s.ie s.ip r with
  | some ex =>
      -- update merge into the (stale) matched lead
      -- the three facts needed about the merged lead's email key
      have hkeyfacts : ∀ k, leadEmailKey (mergeLead ex r now) = some k →
          ((∀ l0, mapGet (buildByEmail leads0) k = some l0 → l0.id = ex.id) ∧
            (mapGet (buildByEmail leads0) k = none →
              k ∈ (if jsT (deriveEmail r) then
                (toLowerStr ((deriveEmail r).getD "")) :: s.ie else s.ie)) ∧
            (∀ b ∈ s.leads, b.id ≠ ex.id → leadEmailKey b ≠ some k)) := by
        intro k hk
        rcases lookupExisting_some_cases hex with
          ⟨e, he, hnie, hbe⟩ | ⟨hnoe, hbp⟩
        · -- matched through the email index
          rw [mergeLead_emailKey_some _ _ _ _ he] at hk
          have hke : k = toLowerStr e := (Option.some_inj.mp hk).symm
          subst hke
          refine ⟨?_, ?_, ?_⟩
          · intro l0 h0
            rw [hbe] at h0
            rw [← Option.some_inj.mp h0]
          · intro h0
            rw [hbe] at h0
            cases h0
          · intro b hb hbid hkb
            exact hbid ((hacc b hb _ hkb).1 ex hbe).symm
        · -- matched through the phone index
          cases he : deriveEmail r with
          | some e =>
              rw [mergeLead_emailKey_some _ _ _ _ he] at hk
              have hke : k = toLowerStr e := (Option.some_inj.mp hk).symm
              subst hke
              have hne : e ≠ "" := deriveEmail_ne_empty he
              have hjs : jsT (deriveEmail r) = true := by
                rw [he]; simpa [jsT] using hne
              have hnie : (toLowerStr e) ∉ s.ie := by
                intro hc
                exact hde ⟨hjs, by rw [he]; exact hc⟩
              have hbe : mapGet (buildByEmail leads0) (toLowerStr e) = none := by
                rcases hnoe e he with hc | hc
                · exact absurd hc hnie
                · exact hc
              refine ⟨?_, ?_, ?_⟩
              · intro l0 h0
                rw [hbe] at h0
                cases h0
              · intro _
                have hjs2 : jsT (some e) = true := by simpa [jsT] using hne
                rw [if_pos hjs2]
                exact List.mem_cons_self _ _
              · intro b hb _ hkb
                exact absurd ((hacc b hb _ hkb).2 hbe) hnie
          | none =>
              rw [mergeLead_emailKey_none _ _ _ he] at hk
              -- the merged key is the stale matched lead's own key
              have hexmem : ex ∈ leads0 := byPhone_sound hbp
              have hbe : mapGet (buildByEmail leads0) k = some ex :=
                byEmail_complete hN hexmem hk
              refine ⟨?_, ?_, ?_⟩
              · intro l0 h0
                rw [hbe] at h0
                rw [← Option.some_inj.mp h0]
              · intro h0
                rw [hbe] at h0
                cases h0
              · intro b hb hbid hkb
                exact hbid ((hacc b hb _ hkb).1 ex hbe).symm
      have hfid : ∀ l : Lead,
          (if l.id = ex.id then mergeLead ex r now else l).id = l.id := by
        intro l
        by_cases hid : l.id = ex.id
        · rw [if_pos hid, mergeLead_id, hid]
        · rw [if_neg hid]
      refine ⟨?_, ?_, ?_⟩
      · -- pairwise keys and ids after the in-place replacement
        rw [List.pairwise_map]
        refine hpw.imp_of_mem ?_
        intro a b ha hb hab
        refine ⟨?_, ?_⟩
        · intro k hka hkb
          by_cases haid : a.id = ex.id
          · rw [if_pos haid] at hka
            by_cases hbid : b.id = ex.id
            · exact hab.2 (haid.trans hbid.symm)
            · rw [if_neg hbid] at hkb
              exact (hkeyfacts k hka).2.2 b hb hbid hkb
          · rw [if_neg haid] at hka
            by_cases hbid : b.id = ex.id
            · rw [if_pos hbid] at hkb
              exact (hkeyfacts k hkb).2.2 a ha haid hka
            · rw [if_neg hbid] at hkb
              exact hab.1 k hka hkb
        · rw [hfid a, hfid b]
          exact hab.2
      · intro l2 hl2 k hk2
        obtain ⟨l, hl, hfl⟩ := List.mem_map.mp hl2
        by_cases hid : l.id = ex.id
        · rw [if_pos hid] at hfl
          subst hfl
          have hf := hkeyfacts k hk2
          refine ⟨?_, hf.2.1⟩
          intro l0 h0
          rw [mergeLead_id]
          exact hf.1 l0 h0
        · rw [if_neg hid] at hfl
          subst hfl
          have hf := hacc l hl k hk2
          refine ⟨hf.1, ?_⟩
          intro h0
          have hmem := hf.2 h0
          show k ∈ (if jsT (deriveEmail r) = true then
            toLowerStr ((deriveEmail r).getD "") :: s.ie else s.ie)
          split
          · exact List.mem_cons_of_mem _ hmem
          · exact hmem
      · intro l2 hl2
        obtain ⟨l, hl, hfl⟩ := List.mem_map.mp hl2
        have := hfid l
        rw [hfl] at this
        rw [this]
        exact hlt l hl
  | none =>
      -- create a fresh lead at the head
      refine ⟨?_, ?_, ?_⟩
      · refine List.pairwise_cons.mpr ⟨?_, hpw⟩
        intro b hb
        refine ⟨?_, ?_⟩
        · intro k hk hkb
          cases he : deriveEmail r with
          | none => rw [createLead_emailKey_none _ _ _ he] at hk; cases hk
          | some e =>
              rw [createLead_emailKey_some _ _ _ _ he] at hk
              have hke : k = toLowerStr e := (Option.some_inj.mp hk).symm
              subst hke
              have hne : e ≠ "" := deriveEmail_ne_empty he
              have hjs : jsT (deriveEmail r) = true := by
                rw [he]; simpa [jsT] using hne
              have hnie : (toLowerStr e) ∉ s.ie := by
                intro hc
                exact hde ⟨hjs, by rw [he]; exact hc⟩
              have hbe := lookupExisting_none_email hex he hnie
              exact absurd ((hacc b hb _ hkb).2 hbe) hnie
        · rw [createLead_id]
          exact Nat.ne_of_gt (hlt b hb)
      · intro l2 hl2 k hk2
        rcases List.mem_cons.mp hl2 with rfl | hl2
        · cases he : deriveEmail r with
          | none => rw [createLead_emailKey_none _ _ _ he] at hk2; cases hk2
          | some e =>
              rw [createLead_emailKey_some _ _ _ _ he] at hk2
              have hke : k = toLowerStr e := (Option.some_inj.mp hk2).symm
              subst hke
              have hne : e ≠ "" := deriveEmail_ne_empty he
              have hjs : jsT (deriveEmail r) = true := by
                rw [he]; simpa [jsT] using hne
              have hnie : (toLowerStr e) ∉ s.ie := by
                intro hc
                exact hde ⟨hjs, by rw [he]; exact hc⟩
              have hbe := lookupExisting_none_email hex he hnie
              refine ⟨?_, ?_⟩
              · intro l0 h0
                rw [hbe] at h0
                cases h0
              · intro _
                have hjs2 : jsT (some e) = true := by simpa [jsT] using hne
                rw [if_pos hjs2]
                exact List.mem_cons_self _ _
        · have hf := hacc l2 hl2 k hk2
          refine ⟨hf.1, ?_⟩
          intro h0
          have hmem := hf.2 h0
          show k ∈ (if jsT (deriveEmail r) = true then
            toLowerStr ((deriveEmail r).getD "") :: s.ie else s.ie)
          split
          · exact List.mem_cons_of_mem _ hmem
          · exact hmem
      · intro l2 hl2
        rcases List.mem_cons.mp hl2 with rfl | hl2
        · rw [createLead_id]
          exact Nat.lt_succ_self _
        · exact Nat.lt_succ_of_lt (hlt l2 hl2)

theorem importFold_emailInv (leads0 : List Lead) (now : String)
    (hN : (leads0.filterMap leadEmailKey).Nodup) :
    ∀ (rows : List Rec) (s : ImpState),
      emailInv (buildByEmail leads0) s →
      emailInv (buildByEmail leads0)
        (rows.foldl
          (importStep (buildByEmail leads0) (buildByPhone leads0) now) s) := by
  intro rows
  induction rows with
  | nil => exact fun s h => h
  | cons r rest ih =>
      intro s h
      exact ih _ (importStep_emailInv leads0 now r s hN h)

/-! ## C1 — the identity invariant after an import run -/

/-- A store for the C1 counterexample: two leads with distinct normalized
emails and distinct normalized phones. -/
def c1Store : List Lead :=
  [⟨1, [], "A", some "e1@x", some "111", none, none, "new", none, none,
      "t0", "t0"⟩,
   ⟨2, [], "B", some "e2@x", some "222", none, none, "new", none, none,
      "t0", "t0"⟩]

/-- C1 counterexample: starting from a store with pairwise-distinct
normalized emails and phones, a single row that matches the second lead by
email while carrying the first lead's phone copies that phone onto the
matched lead (email matching has precedence, so the phone index is never
consulted), leaving two leads with normalized phone `111`. -/
theorem import_steals_phone :
    ((c1Store.filterMap leadEmailKey).Nodup ∧
        (c1Store.filterMap leadPhoneKey).Nodup) ∧
      ¬ (((importFromCsvRows ⟨c1Store, []⟩
            [[("name", "Al"), ("email", "e2@x"), ("phone", "111")]]
            "t1" 3).1.leads.filterMap leadPhoneKey).Nodup) := by
  refine ⟨⟨by decide, by decide⟩, ?_⟩
  decide

/-- C1 amended: the half of the invariant that does survive an import run
is email distinctness — starting from a store with pairwise-distinct
normalized emails and phones (and well-formed ids: pairwise distinct and
below the fresh-id supply standing for `randomUUID`), the lead set after
`importFromCsvRows` again has pairwise-distinct normalized emails. Phone
distinctness is not preserved (see the counterexample). -/
theorem import_preserves_email_distinct (st : CRMState) (rows : List Rec)
    (now : String) (nid : Nat)
    (hem : (st.leads.filterMap leadEmailKey).Nodup)
    (hph : (st.leads.filterMap leadPhoneKey).Nodup)
    (hid : (st.leads.map Lead.id).Nodup)
    (hfresh : ∀ l ∈ st.leads, l.id < nid) :
    ((importFromCsvRows st rows now nid).1.leads.filterMap
        leadEmailKey).Nodup := by
  have hinv0 : emailInv (buildByEmail st.leads)
      ⟨st.leads, [], [], 0, 0, 0, nid⟩ := by
    refine ⟨?_, ?_, ?_⟩
    · have h1 := (nodup_filterMap_iff leadEmailKey st.leads).mp hem
      have h2 : st.leads.Pairwise (fun a b => a.id ≠ b.id) := by
        have h3 := hid
        unfold List.Nodup at h3
        rw [List.pairwise_map] at h3
        exact h3
      exact h1.and h2
    · intro l hl e hke
      have hbe := byEmail_complete hem hl hke
      refine ⟨?_, ?_⟩
      · intro l0 h0
        rw [hbe] at h0
        rw [← Option.some_inj.mp h0]
      · intro h0
        rw [hbe] at h0
        cases h0
    · exact hfresh
  have hinv1 := importFold_emailInv st.leads now hem rows _ hinv0
  have hrun : (importFromCsvRows st rows now nid).1.leads
      = (assignUnassignedLeads
          ⟨(importRun st rows now nid).leads, st.salespersons⟩ now).leads := rfl
  rw [hrun, forall₂_keepsKeys_emailKeys (assign_preserves
    ⟨(importRun st rows now nid).leads, st.salespersons⟩ now)]
  have hpw1 : ((importRun st rows now nid).leads).Pairwise
      (fun a b => ∀ e, leadEmailKey a = some e → leadEmailKey b ≠ some e) :=
    hinv1.1.imp (fun hab => hab.1)
  exact (nodup_filterMap_iff leadEmailKey _).mpr hpw1

/-- C1 amended, witness: a store of two leads with distinct emails and
phones, one row merging into the first by email; the result still has
pairwise-distinct normalized emails. -/
theorem import_preserves_email_distinct_witness :
    (((⟨[⟨1, [], "A", some "a@x", some "111", none, none, "new", none, none,
          "t0", "t0"⟩,
        ⟨2, [], "B", some "b@x", some "222", none, none, "new", none, none,
          "t0", "t0"⟩], []⟩ : CRMState).leads.filterMap leadEmailKey).Nodup ∧
        (∀ l ∈ (⟨[⟨1, [], "A", some "a@x", some "111", none, none, "new",
            none, none, "t0", "t0"⟩,
          ⟨2, [], "B", some "b@x", some "222", none, none, "new", none, none,
            "t0", "t0"⟩], []⟩ : CRMState).leads, l.id < 3)) ∧
      ((importFromCsvRows
          ⟨[⟨1, [], "A", some "a@x", some "111", none, none, "new", none,
              none, "t0", "t0"⟩,
            ⟨2, [], "B", some "b@x", some "222", none, none, "new", none,
              none, "t0", "t0"⟩], []⟩
          [[("name", "Al"), ("email", "a@x")]] "t1" 3).1.leads.filterMap
        leadEmailKey).Nodup :=
  ⟨⟨by decide, by decide⟩,
    import_preserves_email_distinct _ _ "t1" 3 (by decide) (by decide)
      (by decide) (by decide)⟩

/-! ## C2 — case-variant emails in one batch -/

/-- The first record of the C2 batch. -/
def c2r1 : Rec := [("name", "Jane"), ("email", "Jane@Example.com")]

/-- The later record of the C2 batch, same email up to case. -/
def c2r2 : Rec := [("name", "Janet"), ("email", "jane@example.com")]

/-- C2 counterexample: with an empty store, a batch holding
`Jane@Example.com` and then `jane@example.com` does not process the later
record as an update — it is skipped (`updated = 0`, `skipped = 1`), and
only the first record produces a lead. -/
theorem second_case_variant_email_not_updated :
    (importFromCsvRows ⟨[], []⟩ [c2r1, c2r2] "t1" 0).2.updated = 0 ∧
      (importFromCsvRows ⟨[], []⟩ [c2r1, c2r2] "t1" 0).2.skipped = 1 ∧
      (importFromCsvRows ⟨[], []⟩ [c2r1, c2r2] "t1" 0).1.leads.length = 1 := by
  refine ⟨by decide, by decide, by decide⟩

/-- C2 amended: for every starting store, the two case-variant records do
resolve against the same normalized email, but the later one is skipped as
an intra-batch duplicate rather than processed as an update: `skipped = 1`,
only the first record is processed (`imported + updated = 1`), and the
store gains at most one lead — no duplicate create. -/
theorem intra_batch_duplicate_skipped (st : CRMState) (now : String)
    (nid : Nat) :
    (importFromCsvRows st [c2r1, c2r2] now nid).2.skipped = 1 ∧
      (importFromCsvRows st [c2r1, c2r2] now nid).2.imported +
        (importFromCsvRows st [c2r1, c2r2] now nid).2.updated = 1 ∧
      (importFromCsvRows st [c2r1, c2r2] now nid).1.leads.length
        ≤ st.leads.length + 1 := by
  have e1 : importStep (buildByEmail st.leads) (buildByPhone st.leads) now
      ⟨st.leads, [], [], 0, 0, 0, nid⟩ c2r1
      = match mapGet (buildByEmail st.leads) "jane@example.com" with
        | some ex =>
            ⟨st.leads.map
                (fun l => if l.id = ex.id then mergeLead ex c2r1 now else l),
              ["jane@example.com"], [], 0, 1, 0, nid⟩
        | none =>
            ⟨createLead c2r1 now nid :: st.leads, ["jane@example.com"], [],
              1, 0, 0, nid + 1⟩ := by
    rw [importStep_run _ _ _ _ _ (by decide) (by simp) (by simp)]
    have hlook : lookupExisting (buildByEmail st.leads)
        (buildByPhone st.leads)
        (⟨st.leads, [], [], 0, 0, 0, nid⟩ : ImpState).ie
        (⟨st.leads, [], [], 0, 0, 0, nid⟩ : ImpState).ip c2r1
        = mapGet (buildByEmail st.leads) "jane@example.com" := by
      unfold lookupExisting
      cases hbe : mapGet (buildByEmail st.leads) "jane@example.com" <;>
        simp [hbe, show deriveEmail c2r1 = some "Jane@Example.com" from rfl,
          show derivePhone c2r1 = none from rfl, jsT,
          show toLowerStr "Jane@Example.com" = "jane@example.com" from rfl]
    rw [hlook]
    cases mapGet (buildByEmail st.leads) "jane@example.com" <;> rfl
  unfold importFromCsvRows importRun
  simp only [List.foldl_cons, List.foldl_nil]
  rw [e1]
  cases hbe : mapGet (buildByEmail st.leads) "jane@example.com" with
  | none =>
      rw [importStep_skip_email_dup _ _ now _ c2r2 "jane@example.com"
        (by decide)
        (by show toLowerStr "jane@example.com" ∈ ["jane@example.com"]; decide)]
      refine ⟨rfl, rfl, ?_⟩
      have hlen := assign_length
        ⟨createLead c2r1 now nid :: st.leads, st.salespersons⟩ now
      simp only [AssignResult.leads] at hlen
      simp only [hlen]
      simp
  | some ex =>
      rw [importStep_skip_email_dup _ _ now _ c2r2 "jane@example.com"
        (by decide)
        (by show toLowerStr "jane@example.com" ∈ ["jane@example.com"]; decide)]
      refine ⟨rfl, rfl, ?_⟩
      have hlen := assign_length
        ⟨st.leads.map
            (fun l => if l.id = ex.id then mergeLead ex c2r1 now else l),
          st.salespersons⟩ now
      simp only [AssignResult.leads] at hlen
      simp only [hlen]
      simp [Nat.le_succ]

/-- C2 amended, witness: the amended statement at the empty store. -/
theorem intra_batch_duplicate_skipped_witness :
    (importFromCsvRows ⟨[], []⟩ [c2r1, c2r2] "t1" 0).2.skipped = 1 :=
  (intra_batch_duplicate_skipped ⟨[], []⟩ "t1" 0).1

/-! ## C3 machinery: runs from the empty store and re-import matching -/

/-- The normalized email identity key a row offers. -/
def rowEmailKey (r : Rec) : Option String := (deriveEmail r).map toLowerStr

/-- The normalized phone identity key a row offers (only when truthy). -/
def rowPhoneKey (r : Rec) : Option String :=
  if jsT (derivePhone r) then some ((derivePhone r).getD "") else none

theorem createLead_email (r : Rec) (now : String) (i : Nat) :
    (createLead r now i).email = deriveEmail r := rfl

theorem createLead_phone (r : Rec) (now : String) (i : Nat) :
    (createLead r now i).phone = derivePhone r := rfl

/-- With empty indexes the resolver never matches. -/
theorem lookupExisting_nil (ie ip : List String) (r : Rec) :
    lookupExisting [] [] ie ip r = none := by
  unfold lookupExisting
  cases hde : deriveEmail r with
  | none =>
      dsimp only
      split <;> rfl
  | some e =>
      dsimp only
      by_cases hie : (toLowerStr e) ∈ ie
      · rw [if_pos hie]
        dsimp only
        split <;> rfl
      · rw [if_neg hie]
        dsimp only [mapGet]
        split <;> rfl

/-- An email-index hit wins the resolution. -/
theorem lookupExisting_email_hit {bE bP : List (String × Lead)}
    {ie ip : List String} {r : Rec} {e : String} {ex : Lead}
    (he : deriveEmail r = some e) (hnie : (toLowerStr e) ∉ ie)
    (hbe : mapGet bE (toLowerStr e) = some ex) :
    lookupExisting bE bP ie ip r = some ex := by
  unfold lookupExisting
  rw [he]
  dsimp only
  rw [if_neg hnie, hbe]

/-- With no email, a phone-index hit wins the resolution. -/
theorem lookupExisting_phone_hit {bE bP : List (String × Lead)}
    {ie ip : List String} {r : Rec} {ex : Lead}
    (he : deriveEmail r = none) (hjs : jsT (derivePhone r) = true)
    (hnip : ((derivePhone r).getD "") ∉ ip)
    (hbp : mapGet bP ((derivePhone r).getD "") = some ex) :
    lookupExisting bE bP ie ip r = some ex := by
  unfold lookupExisting
  rw [he]
  dsimp only
  rw [if_pos ⟨hjs, hnip⟩, hbp]

theorem mapGet_mapSet_isSome {α : Type} (m : List (String × α))
    (k k1 : String) (v : α) (h : (mapGet m k1).isSome) :
    (mapGet (mapSet m k v) k1).isSome := by
  by_cases hk : k = k1
  · subst hk
    rw [mapGet_mapSet_self]
    rfl
  · rw [mapGet_mapSet_other _ _ _ _ hk]
    exact h

/-- Every element of the fold's input is reachable under its key. -/
theorem keyFold_covers (key : Lead → String) :
    ∀ (ls : List Lead) (acc : List (String × Lead)) (l : Lead),
      l ∈ ls →
      (mapGet (ls.foldl (fun m l => mapSet m (key l) l) acc) (key l)).isSome := by
  intro ls
  have hpres : ∀ (ls2 : List Lead) (acc : List (String × Lead)) (k : String),
      (mapGet acc k).isSome →
      (mapGet (ls2.foldl (fun m l => mapSet m (key l) l) acc) k).isSome := by
    intro ls2
    induction ls2 with
    | nil => exact fun acc k h => h
    | cons x rest ih =>
        intro acc k h
        exact ih _ _ (mapGet_mapSet_isSome _ _ _ _ h)
  induction ls with
  | nil => intro acc l h; cases h
  | cons x rest ih =>
      intro acc l hl
      rcases List.mem_cons.mp hl with rfl | hl
      · simp only [List.foldl_cons]
        exact hpres rest _ _ (by rw [mapGet_mapSet_self]; rfl)
      · exact ih _ _ hl

/-- A lead with a truthy email is reachable in the email index. -/
theorem byEmail_covers {ls : List Lead} {l : Lead} {e : String}
    (hl : l ∈ ls) (he : l.email = some e) (hne : e ≠ "") :
    (mapGet (buildByEmail ls) (toLowerStr e)).isSome := by
  have hjs : jsT l.email = true := by rw [he]; simpa [jsT] using hne
  have hmem : l ∈ ls.filter (fun l => jsT l.email) :=
    List.mem_filter.mpr ⟨hl, hjs⟩
  have := keyFold_covers (fun l => toLowerStr (l.email.getD ""))
    (ls.filter (fun l => jsT l.email)) [] l hmem
  dsimp only at this
  rw [he] at this
  exact this

/-- A lead with a truthy phone is reachable in the phone index. -/
theorem byPhone_covers {ls : List Lead} {l : Lead} {p : String}
    (hl : l ∈ ls) (hp : l.phone = some p) (hne : p ≠ "") :
    (mapGet (buildByPhone ls) (normalizePhone p)).isSome := by
  have hjs : jsT l.phone = true := by rw [hp]; simpa [jsT] using hne
  have hmem : l ∈ ls.filter (fun l => jsT l.phone) :=
    List.mem_filter.mpr ⟨hl, hjs⟩
  have := keyFold_covers (fun l => normalizePhone (l.phone.getD ""))
    (ls.filter (fun l => jsT l.phone)) [] l hmem
  dsimp only at this
  rw [hp] at this
  exact this

/-- Stripping to digits and plus signs is idempotent. -/
theorem normalizePhone_idem (p : String) :
    normalizePhone (normalizePhone p) = normalizePhone p := by
  show String.mk (stripNonPhone (String.mk (stripNonPhone p.data)).data)
    = String.mk (stripNonPhone p.data)
  rw [show (String.mk (stripNonPhone p.data)).data = stripNonPhone p.data
    from rfl]
  rw [stripNonPhone_eq_filter, stripNonPhone_eq_filter, List.filter_filter]
  simp [Bool.and_self]

/-- A derived phone key is already normalized. -/
theorem derivePhone_normalized {r : Rec} {p : String}
    (hp : derivePhone r = some p) : normalizePhone p = p := by
  unfold derivePhone at hp
  split at hp
  · cases hp
  · rw [← Option.some_inj.mp hp]
    exact normalizePhone_idem _

/-- Transfer membership along a `Forall₂`. -/
theorem forall₂_mem_transfer {ls out : List Lead}
    (h : List.Forall₂ keepsKeys ls out) :
    ∀ l ∈ ls, ∃ l2 ∈ out, keepsKeys l l2 := by
  induction h with
  | nil => intro l hl; cases hl
  | @cons a b l1 l2 hk ht ih =>
      intro l hl
      rcases List.mem_cons.mp hl with rfl | hl
      · exact ⟨b, List.mem_cons_self _ _, hk⟩
      · obtain ⟨l2m, hmem, hkeep⟩ := ih l hl
        exact ⟨l2m, List.mem_cons_of_mem _ hmem, hkeep⟩

/-- Membership in the batch email set after one non-skipped step. -/
theorem mem_stepIE {r : Rec} {ie : List String} {e : String}
    (h : e ∈ (if jsT (deriveEmail r) = true then
        (toLowerStr ((deriveEmail r).getD "")) :: ie else ie)) :
    e ∈ ie ∨ rowEmailKey r = some e := by
  by_cases hjs : jsT (deriveEmail r) = true
  · rw [if_pos hjs] at h
    rcases List.mem_cons.mp h with rfl | h
    · cases hde : deriveEmail r with
      | none => rw [hde] at hjs; cases hjs
      | some e0 =>
          refine Or.inr ?_
          unfold rowEmailKey
          rw [hde]
          rfl
    · exact Or.inl h
  · rw [if_neg hjs] at h
    exact Or.inl h

/-- Membership in the batch phone set after one non-skipped step. -/
theorem mem_stepIP {r : Rec} {ip : List String} {p : String}
    (h : p ∈ (if jsT (derivePhone r) = true then
        ((derivePhone r).getD "") :: ip else ip)) :
    p ∈ ip ∨ rowPhoneKey r = some p := by
  by_cases hjs : jsT (derivePhone r) = true
  · rw [if_pos hjs] at h
    rcases List.mem_cons.mp h with rfl | h
    · refine Or.inr ?_
      unfold rowPhoneKey
      rw [if_pos hjs]
    · exact Or.inl h
  · rw [if_neg hjs] at h
    exact Or.inl h

/-- The batch-freshness hypothesis survives one non-skipped step when the
head row's keys are new (from the `Nodup` hypotheses). -/
theorem stepFree {r : Rec} {rest : List Rec} {ie2 ip2 : List String}
    (hfree : ∀ r2 ∈ r :: rest, survivesJunk r2 = true →
      (∀ e, rowEmailKey r2 = some e → e ∉ ie2) ∧
      (∀ p, rowPhoneKey r2 = some p → p ∉ ip2))
    (hs : survivesJunk r = true)
    (hemN : (((r :: rest).filter
        (fun r => survivesJunk r)).filterMap rowEmailKey).Nodup)
    (hphN : (((r :: rest).filter
        (fun r => survivesJunk r)).filterMap rowPhoneKey).Nodup) :
    ∀ r2 ∈ rest, survivesJunk r2 = true →
      (∀ e, rowEmailKey r2 = some e →
        e ∉ (if jsT (deriveEmail r) = true then
          (toLowerStr ((deriveEmail r).getD "")) :: ie2 else ie2)) ∧
      (∀ p, rowPhoneKey r2 = some p →
        p ∉ (if jsT (derivePhone r) = true then
          ((derivePhone r).getD "") :: ip2 else ip2)) := by
  rw [List.filter_cons_of_pos hs] at hemN hphN
  intro r2 hr2 hs2
  constructor
  · intro e hke hmem
    rcases mem_stepIE hmem with hmem | hkr
    · exact (hfree r2 (List.mem_cons_of_mem _ hr2) hs2).1 e hke hmem
    · have hin : e ∈ (rest.filter
          (fun r => survivesJunk r)).filterMap rowEmailKey :=
        List.mem_filterMap.mpr ⟨r2, List.mem_filter.mpr ⟨hr2, hs2⟩, hke⟩
      rw [List.filterMap_cons, hkr] at hemN
      exact (List.nodup_cons.mp hemN).1 hin
  · intro p hkp hmem
    rcases mem_stepIP hmem with hmem | hkr
    · exact (hfree r2 (List.mem_cons_of_mem _ hr2) hs2).2 p hkp hmem
    · have hin : p ∈ (rest.filter
          (fun r => survivesJunk r)).filterMap rowPhoneKey :=
        List.mem_filterMap.mpr ⟨r2, List.mem_filter.mpr ⟨hr2, hs2⟩, hkp⟩
      rw [List.filterMap_cons, hkr] at hphN
      exact (List.nodup_cons.mp hphN).1 hin

/-- The non-duplicate conditions of one step, from batch freshness. -/
theorem stepNoDup {r : Rec} {s : ImpState}
    (hfe : ∀ e, rowEmailKey r = some e → e ∉ s.ie)
    (hfp : ∀ p, rowPhoneKey r = some p → p ∉ s.ip) :
    ¬ (jsT (deriveEmail r) = true ∧
        (toLowerStr ((deriveEmail r).getD "")) ∈ s.ie) ∧
      ¬ (jsT (derivePhone r) = true ∧ ((derivePhone r).getD "") ∈ s.ip) := by
  constructor
  · rintro ⟨hjs, hmem⟩
    cases hde : deriveEmail r with
    | none => rw [hde] at hjs; cases hjs
    | some e =>
        refine hfe (toLowerStr e) ?_ ?_
        · unfold rowEmailKey
          rw [hde]
          rfl
        · rw [hde] at hmem
          exact hmem
  · rintro ⟨hjs, hmem⟩
    refine hfp ((derivePhone r).getD "") ?_ hmem
    unfold rowPhoneKey
    rw [if_pos hjs]

/-- Run 1 from empty indexes: existing leads persist and every surviving row
leaves a lead with its derived email and phone (against empty indexes the
resolver never matches, so every surviving row creates). -/
theorem run1_fold (now : String) :
    ∀ (rest : List Rec) (s : ImpState),
      (∀ r ∈ rest, survivesJunk r = true →
        (∀ e, rowEmailKey r = some e → e ∉ s.ie) ∧
        (∀ p, rowPhoneKey r = some p → p ∉ s.ip)) →
      ((rest.filter (fun r => survivesJunk r)).filterMap rowEmailKey).Nodup →
      ((rest.filter (fun r => survivesJunk r)).filterMap rowPhoneKey).Nodup →
      (∀ l ∈ s.leads, l ∈ (rest.foldl (importStep [] [] now) s).leads) ∧
      (∀ r ∈ rest, survivesJunk r = true →
        ∃ l ∈ (rest.foldl (importStep [] [] now) s).leads,
          l.email = deriveEmail r ∧ l.phone = derivePhone r) := by
  intro rest
  induction rest with
  | nil =>
      intro s _ _ _
      refine ⟨fun l hl => hl, fun r hr => ?_⟩
      cases hr
  | cons r rest ih =>
      intro s hfree hemN hphN
      by_cases hs : survivesJunk r = true
      case neg =>
        have hs0 : survivesJunk r = false := by simpa using hs
        rw [List.filter_cons_of_neg (by rw [hs0]; decide)] at hemN hphN
        simp only [List.foldl_cons,
          importStep_skip_junk [] [] now s r hs0]
        have hfree2 : ∀ r2 ∈ rest, survivesJunk r2 = true →
            (∀ e, rowEmailKey r2 = some e →
              e ∉ ({ s with skipped := s.skipped + 1 } : ImpState).ie) ∧
            (∀ p, rowPhoneKey r2 = some p →
              p ∉ ({ s with skipped := s.skipped + 1 } : ImpState).ip) :=
          fun r2 hr2 hs2 => hfree r2 (List.mem_cons_of_mem _ hr2) hs2
        obtain ⟨hmono, hrows⟩ := ih _ hfree2 hemN hphN
        refine ⟨fun l hl => hmono l hl, ?_⟩
        intro r2 hr2 hs2
        rcases List.mem_cons.mp hr2 with rfl | hr2
        · rw [hs0] at hs2; cases hs2
        · exact hrows r2 hr2 hs2
      case pos =>
        have hnd := stepNoDup (hfree r (List.mem_cons_self _ _) hs).1
          (hfree r (List.mem_cons_self _ _) hs).2
        have hstep : importStep [] [] now s r =
            { s with
              leads := createLead r now s.nextId :: s.leads
              ie := if jsT (deriveEmail r) = true then
                  (toLowerStr ((deriveEmail r).getD "")) :: s.ie else s.ie
              ip := if jsT (derivePhone r) = true then
                  ((derivePhone r).getD "") :: s.ip else s.ip
              imported := s.imported + 1
              nextId := s.nextId + 1 } := by
          rw [importStep_run [] [] now s r hs hnd.1 hnd.2, lookupExisting_nil]
        simp only [List.foldl_cons, hstep]
        have hfree2 := stepFree hfree hs hemN hphN
        rw [List.filter_cons_of_pos hs] at hemN hphN
        have hemN2 : ((rest.filter
            (fun r => survivesJunk r)).filterMap rowEmailKey).Nodup := by
          rw [List.filterMap_cons] at hemN
          cases hkr : rowEmailKey r with
          | none => rw [hkr] at hemN; exact hemN
          | some k => rw [hkr] at hemN; exact (List.nodup_cons.mp hemN).2
        have hphN2 : ((rest.filter
            (fun r => survivesJunk r)).filterMap rowPhoneKey).Nodup := by
          rw [List.filterMap_cons] at hphN
          cases hkr : rowPhoneKey r with
          | none => rw [hkr] at hphN; exact hphN
          | some k => rw [hkr] at hphN; exact (List.nodup_cons.mp hphN).2
        obtain ⟨hmono, hrows⟩ := ih
          ({ s with
              leads := createLead r now s.nextId :: s.leads
              ie := if jsT (deriveEmail r) = true then
                  (toLowerStr ((deriveEmail r).getD "")) :: s.ie else s.ie
              ip := if jsT (derivePhone r) = true then
                  ((derivePhone r).getD "") :: s.ip else s.ip
              imported := s.imported + 1
              nextId := s.nextId + 1 } : ImpState)
          (by exact hfree2) hemN2 hphN2
        refine ⟨?_, ?_⟩
        · intro l hl
          exact hmono l (List.mem_cons_of_mem _ hl)
        · intro r2 hr2 hs2
          rcases List.mem_cons.mp hr2 with rfl | hr2
          · exact ⟨createLead r2 now s.nextId,
              hmono _ (List.mem_cons_self _ _), rfl, rfl⟩
          · exact hrows r2 hr2 hs2

/-- Run 2 against indexes that cover every surviving row's key: every
surviving row resolves to an existing lead and is counted as an update, so
`imported` stays put and `updated` grows by the number of surviving rows. -/
theorem run2_fold (bE bP : List (String × Lead)) (now : String) :
    ∀ (rest : List Rec) (s : ImpState),
      (∀ r ∈ rest, survivesJunk r = true →
        (∀ e, deriveEmail r = some e →
          (mapGet bE (toLowerStr e)).isSome) ∧
        (deriveEmail r = none → jsT (derivePhone r) = true ∧
          (mapGet bP ((derivePhone r).getD "")).isSome)) →
      (∀ r ∈ rest, survivesJunk r = true →
        (∀ e, rowEmailKey r = some e → e ∉ s.ie) ∧
        (∀ p, rowPhoneKey r = some p → p ∉ s.ip)) →
      ((rest.filter (fun r => survivesJunk r)).filterMap rowEmailKey).Nodup →
      ((rest.filter (fun r => survivesJunk r)).filterMap rowPhoneKey).Nodup →
      (rest.foldl (importStep bE bP now) s).imported = s.imported ∧
      (rest.foldl (importStep bE bP now) s).updated
        = s.updated + (rest.filter (fun r => survivesJunk r)).length := by
  intro rest
  induction rest with
  | nil =>
      intro s _ _ _ _
      exact ⟨rfl, rfl⟩
  | cons r rest ih =>
      intro s hcov hfree hemN hphN
      by_cases hs : survivesJunk r = true
      case neg =>
        have hs0 : survivesJunk r = false := by simpa using hs
        rw [List.filter_cons_of_neg (by rw [hs0]; decide)] at hemN hphN ⊢
        simp only [List.foldl_cons,
          importStep_skip_junk bE bP now s r hs0]
        have hcov2 : ∀ r2 ∈ rest, survivesJunk r2 = true →
            (∀ e, deriveEmail r2 = some e →
              (mapGet bE (toLowerStr e)).isSome) ∧
            (deriveEmail r2 = none → jsT (derivePhone r2) = true ∧
              (mapGet bP ((derivePhone r2).getD "")).isSome) :=
          fun r2 hr2 => hcov r2 (List.mem_cons_of_mem _ hr2)
        have hfree2 : ∀ r2 ∈ rest, survivesJunk r2 = true →
            (∀ e, rowEmailKey r2 = some e →
              e ∉ ({ s with skipped := s.skipped + 1 } : ImpState).ie) ∧
            (∀ p, rowPhoneKey r2 = some p →
              p ∉ ({ s with skipped := s.skipped + 1 } : ImpState).ip) :=
          fun r2 hr2 hs2 => hfree r2 (List.mem_cons_of_mem _ hr2) hs2
        exact ih _ hcov2 hfree2 hemN hphN
      case pos =>
        have hnd := stepNoDup (hfree r (List.mem_cons_self _ _) hs).1
          (hfree r (List.mem_cons_self _ _) hs).2
        have hfound : ∃ ex, lookupExisting bE bP s.ie s.ip r = some ex := by
          cases hde : deriveEmail r with
          | some e =>
              have hisSome :=
                (hcov r (List.mem_cons_self _ _) hs).1 e hde
              obtain ⟨ex, hbe⟩ := Option.isSome_iff_exists.mp hisSome
              have hnie : (toLowerStr e) ∉ s.ie := by
                refine (hfree r (List.mem_cons_self _ _) hs).1
                  (toLowerStr e) ?_
                unfold rowEmailKey
                rw [hde]
                rfl
              exact ⟨ex, lookupExisting_email_hit hde hnie hbe⟩
          | none =>
              obtain ⟨hjs, hisSome⟩ :=
                (hcov r (List.mem_cons_self _ _) hs).2 hde
              obtain ⟨ex, hbp⟩ := Option.isSome_iff_exists.mp hisSome
              have hnip : ((derivePhone r).getD "") ∉ s.ip := by
                refine (hfree r (List.mem_cons_self _ _) hs).2
                  ((derivePhone r).getD "") ?_
                unfold rowPhoneKey
                rw [if_pos hjs]
              exact ⟨ex, lookupExisting_phone_hit hde hjs hnip hbp⟩
        obtain ⟨ex, hex⟩ := hfound
        have hstep : importStep bE bP now s r =
            { s with
              leads := s.leads.map
                (fun l => if l.id = ex.id then mergeLead ex r now else l)
              ie := if jsT (deriveEmail r) = true then
                  (toLowerStr ((deriveEmail r).getD "")) :: s.ie else s.ie
              ip := if jsT (derivePhone r) = true then
                  ((derivePhone r).getD "") :: s.ip else s.ip
              updated := s.updated + 1 } := by
          rw [importStep_run bE bP now s r hs hnd.1 hnd.2, hex]
        simp only [List.foldl_cons, hstep]
        have hfree2 := stepFree hfree hs hemN hphN
        rw [List.filter_cons_of_pos hs] at hemN hphN ⊢
        have hemN2 : ((rest.filter
            (fun r => survivesJunk r)).filterMap rowEmailKey).Nodup := by
          rw [List.filterMap_cons] at hemN
          cases hkr : rowEmailKey r with
          | none => rw [hkr] at hemN; exact hemN
          | some k => rw [hkr] at hemN; exact (List.nodup_cons.mp hemN).2
        have hphN2 : ((rest.filter
            (fun r => survivesJunk r)).filterMap rowPhoneKey).Nodup := by
          rw [List.filterMap_cons] at hphN
          cases hkr : rowPhoneKey r with
          | none => rw [hkr] at hphN; exact hphN
          | some k => rw [hkr] at hphN; exact (List.nodup_cons.mp hphN).2
        have hcov2 : ∀ r2 ∈ rest, survivesJunk r2 = true →
            (∀ e, deriveEmail r2 = some e →
              (mapGet bE (toLowerStr e)).isSome) ∧
            (deriveEmail r2 = none → jsT (derivePhone r2) = true ∧
              (mapGet bP ((derivePhone r2).getD "")).isSome) :=
          fun r2 hr2 => hcov r2 (List.mem_cons_of_mem _ hr2)
        obtain ⟨him, hup⟩ := ih
          ({ s with
              leads := s.leads.map
                (fun l => if l.id = ex.id then mergeLead ex r now else l)
              ie := if jsT (deriveEmail r) = true then
                  (toLowerStr ((deriveEmail r).getD "")) :: s.ie else s.ie
              ip := if jsT (derivePhone r) = true then
                  ((derivePhone r).getD "") :: s.ip else s.ip
              updated := s.updated + 1 } : ImpState)
          hcov2 (by exact hfree2) hemN2 hphN2
        refine ⟨him.trans rfl, ?_⟩
        rw [hup]
        have hproj : ({ s with
            leads := s.leads.map
              (fun l => if l.id = ex.id then mergeLead ex r now else l)
            ie := if jsT (deriveEmail r) = true then
                (toLowerStr ((deriveEmail r).getD "")) :: s.ie else s.ie
            ip := if jsT (derivePhone r) = true then
                ((derivePhone r).getD "") :: s.ip else s.ip
            updated := s.updated + 1 } : ImpState).updated = s.updated + 1 :=
          rfl
        rw [hproj, List.length_cons]
        show s.updated + 1 + (rest.filter (fun r => survivesJunk r)).length
          = s.updated + ((rest.filter (fun r => survivesJunk r)).length + 1)
        omega

/-! ## C3 — importing the same rows twice -/

/-- C3 amended: starting from a store with no leads, if every row that
passes the blank/junk classifier carries an identity key (a derived email
or a truthy normalized phone) and the surviving rows' normalized email keys
and phone keys are each pairwise distinct, then importing the same row set
twice makes the second run report `imported = 0` and `updated` equal to the
number of surviving rows. -/
theorem import_twice_idempotent (rows : List Rec) (sps : List Salesperson)
    (now1 now2 : String) (n1 n2 : Nat)
    (hkey : ∀ r ∈ rows, survivesJunk r = true →
      (deriveEmail r).isSome ∨ jsT (derivePhone r) = true)
    (hem : ((rows.filter
        (fun r => survivesJunk r)).filterMap rowEmailKey).Nodup)
    (hph : ((rows.filter
        (fun r => survivesJunk r)).filterMap rowPhoneKey).Nodup) :
    (importFromCsvRows (importFromCsvRows ⟨[], sps⟩ rows now1 n1).1
        rows now2 n2).2.imported = 0 ∧
      (importFromCsvRows (importFromCsvRows ⟨[], sps⟩ rows now1 n1).1
        rows now2 n2).2.updated
        = (rows.filter (fun r => survivesJunk r)).length := by
  have hrun1 := run1_fold now1 rows ⟨[], [], [], 0, 0, 0, n1⟩
    (fun r hr hs => ⟨fun e _ => List.not_mem_nil e,
      fun p _ => List.not_mem_nil p⟩)
    hem hph
  have hF2 := assign_preserves
    ⟨(importRun ⟨[], sps⟩ rows now1 n1).leads, sps⟩ now1
  have hcov : ∀ r ∈ rows, survivesJunk r = true →
      (∀ e, deriveEmail r = some e →
        (mapGet (buildByEmail
          (importFromCsvRows ⟨[], sps⟩ rows now1 n1).1.leads)
          (toLowerStr e)).isSome) ∧
      (deriveEmail r = none → jsT (derivePhone r) = true ∧
        (mapGet (buildByPhone
          (importFromCsvRows ⟨[], sps⟩ rows now1 n1).1.leads)
          ((derivePhone r).getD "")).isSome) := by
    intro r hr hs
    obtain ⟨l, hlmem, hle, hlp⟩ := hrun1.2 r hr hs
    obtain ⟨l2, hl2mem, hkeep⟩ := forall₂_mem_transfer hF2 l (by exact hlmem)
    constructor
    · intro e he
      have hl2e : l2.email = some e := by rw [hkeep.1, hle, he]
      exact byEmail_covers (by exact hl2mem) hl2e (deriveEmail_ne_empty he)
    · intro he
      rcases hkey r hr hs with hc | hc
      · rw [he] at hc; cases hc
      · refine ⟨hc, ?_⟩
        have hp2 : ∃ p, derivePhone r = some p ∧ p ≠ "" := by
          cases hp0 : derivePhone r with
          | none => rw [hp0] at hc; cases hc
          | some p =>
              refine ⟨p, rfl, ?_⟩
              rw [hp0] at hc
              simpa [jsT] using hc
        obtain ⟨p, hp, hpne⟩ := hp2
        have hl2p : l2.phone = some p := by rw [hkeep.2.1, hlp, hp]
        have hcov0 := byPhone_covers (by exact hl2mem) hl2p hpne
        rw [derivePhone_normalized hp] at hcov0
        rw [hp]
        exact hcov0
  have hrun2 := run2_fold
    (buildByEmail (importFromCsvRows ⟨[], sps⟩ rows now1 n1).1.leads)
    (buildByPhone (importFromCsvRows ⟨[], sps⟩ rows now1 n1).1.leads)
    now2 rows
    ⟨(importFromCsvRows ⟨[], sps⟩ rows now1 n1).1.leads, [], [], 0, 0, 0, n2⟩
    hcov
    (fun r hr hs => ⟨fun e _ => List.not_mem_nil e,
      fun p _ => List.not_mem_nil p⟩)
    hem hph
  constructor
  · exact hrun2.1
  · rw [show (importFromCsvRows (importFromCsvRows ⟨[], sps⟩ rows now1 n1).1
        rows now2 n2).2.updated
      = (rows.foldl (importStep
          (buildByEmail (importFromCsvRows ⟨[], sps⟩ rows now1 n1).1.leads)
          (buildByPhone (importFromCsvRows ⟨[], sps⟩ rows now1 n1).1.leads)
          now2)
        ⟨(importFromCsvRows ⟨[], sps⟩ rows now1 n1).1.leads,
          [], [], 0, 0, 0, n2⟩).updated from rfl, hrun2.2]
    show 0 + (rows.filter (fun r => survivesJunk r)).length
      = (rows.filter (fun r => survivesJunk r)).length
    exact Nat.zero_add _

/-- C3 amended, witness: two keyed rows (one email row, one phone row)
imported twice from the empty store; the second run updates both and
imports none. -/
theorem import_twice_idempotent_witness :
    ((([[("name", "Ann"), ("email", "a@x")], [("phone", "+123a456")]]
          : List Rec).filter
        (fun r => survivesJunk r)).filterMap rowEmailKey).Nodup ∧
      (importFromCsvRows
        (importFromCsvRows ⟨[], []⟩
          [[("name", "Ann"), ("email", "a@x")], [("phone", "+123a456")]]
          "t1" 0).1
        [[("name", "Ann"), ("email", "a@x")], [("phone", "+123a456")]]
        "t2" 10).2.imported = 0 ∧
      (importFromCsvRows
        (importFromCsvRows ⟨[], []⟩
          [[("name", "Ann"), ("email", "a@x")], [("phone", "+123a456")]]
          "t1" 0).1
        [[("name", "Ann"), ("email", "a@x")], [("phone", "+123a456")]]
        "t2" 10).2.updated = 2 := by
  refine ⟨by decide, ?_, ?_⟩
  · exact (import_twice_idempotent _ [] "t1" "t2" 0 10 (by decide) (by decide)
      (by decide)).1
  · exact ((import_twice_idempotent _ [] "t1" "t2" 0 10 (by decide)
      (by decide) (by decide)).2).trans (by decide)

/-- C3 counterexample: a row with a name and a company but no email and no
phone is imported again by the second run of the same row set over the same
store, so the second run's `imported` is not 0. -/
theorem keyless_row_reimported :
    ¬ ((importFromCsvRows
          (importFromCsvRows ⟨[], []⟩ [[("name", "Bob"), ("company", "Acme")]]
            "t1" 0).1
          [[("name", "Bob"), ("company", "Acme")]] "t2" 10).2.imported = 0) := by
  decide

/-! ## C8 — three workers, nine leads -/

/-- C8: with exactly three active workers (distinct, non-empty ids) each
owning nothing and nine unowned leads, the balancer assigns every lead,
reports `assigned = 9`, and ends with each worker owning exactly three
leads (the first strict minimum walks round-robin over the insertion
order). -/
theorem balancer_three_workers_nine_leads
    (s1 s2 s3 : Salesperson) (ls : List Lead) (now : String)
    (hact : s1.active = true ∧ s2.active = true ∧ s3.active = true)
    (hdist : s1.id ≠ s2.id ∧ s1.id ≠ s3.id ∧ s2.id ≠ s3.id)
    (hne : s1.id ≠ "" ∧ s2.id ≠ "" ∧ s3.id ≠ "")
    (hlen : ls.length = 9)
    (hun : ∀ l ∈ ls, l.ownerId = none) :
    (assignUnassignedLeads ⟨ls, [s1, s2, s3]⟩ now).assigned = 9 ∧
      ((assignUnassignedLeads ⟨ls, [s1, s2, s3]⟩ now).leads.filter
        (fun l => l.ownerId = some s1.id)).length = 3 ∧
      ((assignUnassignedLeads ⟨ls, [s1, s2, s3]⟩ now).leads.filter
        (fun l => l.ownerId = some s2.id)).length = 3 ∧
      ((assignUnassignedLeads ⟨ls, [s1, s2, s3]⟩ now).leads.filter
        (fun l => l.ownerId = some s3.id)).length = 3 ∧
      ∀ l ∈ (assignUnassignedLeads ⟨ls, [s1, s2, s3]⟩ now).leads,
        l.ownerId ≠ none := by
  rcases ls with _ | ⟨l1, _ | ⟨l2, _ | ⟨l3, _ | ⟨l4, _ | ⟨l5, _ | ⟨l6,
    _ | ⟨l7, _ | ⟨l8, _ | ⟨l9, _ | ⟨l10, tl⟩⟩⟩⟩⟩⟩⟩⟩⟩⟩
  case nil => exfalso; simp at hlen
  case cons.nil => exfalso; simp at hlen
  case cons.cons.nil => exfalso; simp at hlen
  case cons.cons.cons.nil => exfalso; simp at hlen
  case cons.cons.cons.cons.nil => exfalso; simp at hlen
  case cons.cons.cons.cons.cons.nil => exfalso; simp at hlen
  case cons.cons.cons.cons.cons.cons.nil => exfalso; simp at hlen
  case cons.cons.cons.cons.cons.cons.cons.nil => exfalso; simp at hlen
  case cons.cons.cons.cons.cons.cons.cons.cons.nil => exfalso; simp at hlen
  case cons.cons.cons.cons.cons.cons.cons.cons.cons.cons =>
    exfalso; simp at hlen
  case cons.cons.cons.cons.cons.cons.cons.cons.cons.nil =>
    obtain ⟨ha1, ha2, ha3⟩ := hact
    obtain ⟨hd12, hd13, hd23⟩ := hdist
    obtain ⟨hn1, hn2, hn3⟩ := hne
    have hd21 := Ne.symm hd12
    have hd31 := Ne.symm hd13
    have hd32 := Ne.symm hd23
    have h1 := hun l1 (by simp)
    have h2 := hun l2 (by simp)
    have h3 := hun l3 (by simp)
    have h4 := hun l4 (by simp)
    have h5 := hun l5 (by simp)
    have h6 := hun l6 (by simp)
    have h7 := hun l7 (by simp)
    have h8 := hun l8 (by simp)
    have h9 := hun l9 (by simp)
    refine ⟨?_, ?_, ?_, ?_, ?_⟩ <;>
      simp [assignUnassignedLeads, initialLoad, assignStep, findLeastLoaded,
        mapGet, mapSet, jsT, h1, h2, h3, h4, h5, h6, h7, h8, h9,
        ha1, ha2, ha3, hd12, hd13, hd23, hd21, hd31, hd32, hn1, hn2, hn3]

/-- A plain unowned lead used by the C8 witness. -/
def c8lead (n : Nat) : Lead :=
  ⟨n, [], "l", none, none, none, none, "new", none, none, "t0", "t0"⟩

/-- A plain active worker used by the C8 witness. -/
def c8worker (i : String) : Salesperson := ⟨i, i, none, true, "t0"⟩

/-- C8 witness: three concrete workers and nine concrete leads; the
balancer assigns all nine. -/
theorem balancer_three_workers_nine_leads_witness :
    (((List.range 9).map c8lead).length = 9 ∧
        (∀ l ∈ (List.range 9).map c8lead, l.ownerId = none)) ∧
      (assignUnassignedLeads
        ⟨(List.range 9).map c8lead,
          [c8worker "w1", c8worker "w2", c8worker "w3"]⟩ "t1").assigned = 9 :=
  ⟨⟨by decide, by decide⟩,
    (balancer_three_workers_nine_leads (c8worker "w1") (c8worker "w2")
      (c8worker "w3") ((List.range 9).map c8lead) "t1" (by decide) (by decide)
      (by decide) (by decide) (by decide)).1⟩

/-- C5 witness: a lead holding only two note fields is hidden by the
`listLeads` filter. -/
theorem junk_lead_hidden_from_list_witness :
    ((⟨7, [("note1", "x"), ("note2", "y")], "", none, none, none, none,
        "new", none, none, "t0", "t0"⟩ : Lead).name = "") ∧
      listLeadsFilter
        ⟨7, [("note1", "x"), ("note2", "y")], "", none, none, none, none,
          "new", none, none, "t0", "t0"⟩ = false :=
  ⟨by decide,
    junk_lead_hidden_from_list _ (by decide) (by decide) (by decide)
      (by decide)⟩

/-! ## C10 — the shape of parsed records -/

/-- First-occurrence deduplication with an explicit seen set; the key order
`mapSet` produces when writing a key sequence into an empty object. -/
def dedupFirst (seen : List String) : List String → List String
  | [] => []
  | h :: t =>
      if h ∈ seen then dedupFirst seen t else h :: dedupFirst (h :: seen) t

/-- The key list of an association object. -/
def mapKeys (m : Rec) : List String := m.map Prod.fst

theorem mapKeys_mapSet (m : Rec) (k v : String) :
    mapKeys (mapSet m k v) =
      if k ∈ mapKeys m then mapKeys m else mapKeys m ++ [k] := by
  induction m with
  | nil => simp [mapKeys, mapSet]
  | cons kv rest ih =>
      obtain ⟨kk, vv⟩ := kv
      by_cases h : kk = k
      · subst h
        simp [mapKeys, mapSet]
      · have hne : ¬ k = kk := fun he => h he.symm
        simp only [mapSet, if_neg h, mapKeys, List.map_cons]
        by_cases hmem : k ∈ mapKeys rest
        · rw [if_pos (by simp [mapKeys] at hmem ⊢; exact Or.inr hmem)]
          have := ih
          rw [if_pos hmem] at this
          simp only [mapKeys] at this
          rw [this]
        · rw [if_neg (by simp [mapKeys] at hmem ⊢; exact ⟨hne, hmem⟩)]
          have := ih
          rw [if_neg hmem] at this
          simp only [mapKeys] at this
          rw [this]
          simp

theorem dedupFirst_congr :
    ∀ (l seen1 seen2 : List String),
      (∀ x, x ∈ seen1 ↔ x ∈ seen2) →
      dedupFirst seen1 l = dedupFirst seen2 l := by
  intro l
  induction l with
  | nil => intro _ _ _; rfl
  | cons h t ih =>
      intro seen1 seen2 hiff
      unfold dedupFirst
      by_cases hmem : h ∈ seen1
      · rw [if_pos hmem, if_pos ((hiff h).mp hmem)]
        exact ih _ _ hiff
      · rw [if_neg hmem, if_neg (fun hc => hmem ((hiff h).mpr hc))]
        rw [ih (h :: seen1) (h :: seen2)
          (fun x => by simp only [List.mem_cons]; rw [hiff x])]

/-- The key list produced by writing a sequence of keys into an object. -/
theorem mapKeys_indexFold (kf vf : Nat → String) :
    ∀ (js : List Nat) (obj : Rec),
      mapKeys (js.foldl (fun o j => mapSet o (kf j) (vf j)) obj)
        = mapKeys obj ++ dedupFirst (mapKeys obj) (js.map kf) := by
  intro js
  induction js with
  | nil => intro obj; simp [dedupFirst]
  | cons j js ih =>
      intro obj
      simp only [List.foldl_cons, List.map_cons]
      unfold dedupFirst
      by_cases hmem : kf j ∈ mapKeys obj
      · rw [if_pos hmem, ih]
        have hkeys := mapKeys_mapSet obj (kf j) (vf j)
        rw [if_pos hmem] at hkeys
        rw [hkeys]
      · rw [if_neg hmem, ih]
        have hkeys := mapKeys_mapSet obj (kf j) (vf j)
        rw [if_neg hmem] at hkeys
        rw [hkeys,
          dedupFirst_congr (js.map kf) (mapKeys obj ++ [kf j])
            (kf j :: mapKeys obj) (fun x => by simp [or_comm]),
          List.append_assoc, List.singleton_append]

theorem map_getD_range (hs : List String) :
    (List.range hs.length).map (fun j => hs.getD j "") = hs := by
  induction hs with
  | nil => rfl
  | cons h t ih =>
      rw [List.length_cons, List.range_succ_eq_map, List.map_cons,
        List.map_map]
      have h2 : ((fun j => (h :: t).getD j "") ∘ Nat.succ)
          = fun j => t.getD j "" := by
        funext j
        rfl
      rw [h2, ih]
      rfl

/-- The keys of a row object are the headers, first occurrences only. -/
theorem buildObj_keys (hs row : List String) :
    mapKeys (buildObj hs row) = dedupFirst [] hs := by
  unfold buildObj
  rw [mapKeys_indexFold (fun j => hs.getD j "")
    (fun j => trimStr (row.getD j "")) (List.range hs.length) []]
  rw [show mapKeys [] = ([] : List String) from rfl, List.nil_append,
    map_getD_range]

/-- Cells beyond the header count never influence the row object. -/
theorem buildObj_take (hs row : List String) :
    buildObj hs row = buildObj hs (row.take hs.length) := by
  unfold buildObj
  have hgen : ∀ (js : List Nat), (∀ j ∈ js, j < hs.length) → ∀ (obj : Rec),
      js.foldl (fun o j => mapSet o (hs.getD j "")
        (trimStr (row.getD j ""))) obj
        = js.foldl (fun o j => mapSet o (hs.getD j "")
          (trimStr ((row.take hs.length).getD j ""))) obj := by
    intro js
    induction js with
    | nil => intro _ _; rfl
    | cons j js ih =>
        intro hb obj
        simp only [List.foldl_cons]
        have hj := hb j (List.mem_cons_self _ _)
        have hcell : (row.take hs.length).getD j "" = row.getD j "" := by
          rw [List.getD_eq_getElem?_getD, List.getD_eq_getElem?_getD,
            List.getElem?_take_of_lt hj]
        rw [hcell]
        exact ih (fun j2 hj2 => hb j2 (List.mem_cons_of_mem _ hj2)) _
  exact hgen (List.range hs.length)
    (fun j hj => List.mem_range.mp hj) []

/-- With distinct headers, a column index past the end of the row gets the
empty string. -/
theorem buildObj_missing_cell (hs row : List String) (j : Nat)
    (hnd : hs.Nodup) (hj : j < hs.length) (hrow : row.length ≤ j) :
    mapGet (buildObj hs row) (hs.getD j "") = some "" := by
  have hval : trimStr (row.getD j "") = "" := by
    rw [List.getD_eq_getElem?_getD, List.getElem?_eq_none hrow]
    rfl
  have hinj := List.nodup_iff_injective_getElem.mp hnd
  have hgen : ∀ (m : Nat), m ≤ hs.length → ∀ (i : Nat), i < m →
      mapGet ((List.range m).foldl (fun o j => mapSet o (hs.getD j "")
        (trimStr (row.getD j ""))) []) (hs.getD i "")
        = some (trimStr (row.getD i "")) := by
    intro m
    induction m with
    | zero => intro _ i hi; cases hi
    | succ m ih =>
        intro hm i hi
        rw [List.range_succ, List.foldl_append]
        simp only [List.foldl_cons, List.foldl_nil]
        rcases Nat.lt_succ_iff_lt_or_eq.mp hi with hi | rfl
        · have hne : ¬ hs.getD m "" = hs.getD i "" := by
            intro he
            have hmlt : m < hs.length := Nat.lt_of_lt_of_le (Nat.lt_succ_self m) hm
            have hilt : i < hs.length := Nat.lt_of_lt_of_le hi (Nat.le_of_lt (Nat.lt_of_lt_of_le (Nat.lt_succ_self m) hm))
            rw [List.getD_eq_getElem?_getD, List.getD_eq_getElem?_getD,
              List.getElem?_eq_getElem hmlt, List.getElem?_eq_getElem hilt]
                at he
            have : (⟨m, hmlt⟩ : Fin hs.length) = ⟨i, hilt⟩ := by
              apply hinj
              simpa using he
            have : m = i := by
              simpa using congrArg Fin.val this
            omega
          rw [mapGet_mapSet_other _ _ _ _ hne]
          exact ih (Nat.le_of_succ_le hm) i hi
        · rw [mapGet_mapSet_self]
  have := hgen hs.length (Nat.le_refl _) j hj
  rw [hval] at this
  exact this

/-- C10: every record `parseCSV` returns is keyed by exactly the trimmed
header names (first occurrences, in header order); a short data row yields
the empty string for each missing trailing column; cells beyond the header
count are discarded. -/
theorem parseCSV_record_shape :
    (∀ (text : String), ∀ r ∈ (parseCSV text).rows,
        mapKeys r = dedupFirst [] (parseCSV text).headers) ∧
      (∀ (hs row : List String),
        buildObj hs row = buildObj hs (row.take hs.length)) ∧
      (∀ (hs row : List String) (j : Nat), hs.Nodup → j < hs.length →
        row.length ≤ j →
        mapGet (buildObj hs row) (hs.getD j "") = some "") := by
  refine ⟨?_, buildObj_take, buildObj_missing_cell⟩
  intro text r hr
  unfold parseCSV at hr ⊢
  cases hscan : csvScan text.data [] false [] [] with
  | nil =>
      rw [hscan] at hr
      exact (List.not_mem_nil r hr).elim
  | cons r0 rest =>
      rw [hscan] at hr
      dsimp only at hr ⊢
      obtain ⟨raw, _, hraw⟩ := List.mem_map.mp hr
      rw [← hraw]
      exact buildObj_keys _ _

/-- C10 witness: a two-header object built from a one-cell row has both
headers as keys, and the missing second column is the empty string. -/
theorem parseCSV_record_shape_witness :
    ((["a", "b"] : List String).Nodup ∧ 1 < (["a", "b"] : List String).length
        ∧ (["x"] : List String).length ≤ 1) ∧
      mapGet (buildObj ["a", "b"] ["x"]) ((["a", "b"] : List String).getD 1 "")
        = some "" :=
  ⟨⟨by decide, by decide, by decide⟩,
    parseCSV_record_shape.2.2 ["a", "b"] ["x"] 1 (by decide) (by decide)
      (by decide)⟩

end SalesCRM
